import Mathlib

/-!
# AegisOps analysis gateway — verification development

Shallow embedding of the backend analysis request gateway of the AegisOps
incident-analysis service:

* `src/server/lib/gemini.ts` — retry/timeout engine (`withRetry`, `withTimeout`,
  `clampNumber`, jitter/backoff computation);
* `src/server/lib/analyzeCache.ts` — deterministic cache-key builder
  (`buildAnalyzeCacheKey`, `hashImagePayload`) and the TTL/LRU analyze cache
  (`createAnalyzeCache`);
* `src/server/lib/validation.ts` — image normalization/validation
  (`normalizeAndValidateImages` and helpers);
* `src/server/lib/json.ts` — JSON repair parser (`tryRepairAndParseJson`);
* `src/server/index.ts` — fixed-window rate limiter (`isRateLimited`) and the
  in-flight coalescer of the `POST /api/analyze` handler.

JavaScript numbers are modelled as `Int` (all quantities involved are integral
in the source; `Number(x || d)` defaulting is modelled by mapping `0` to the
default `d`, matching JS falsiness of `0`).  The SHA-256 digest from
`node:crypto` is a host primitive, modelled as an abstract function parameter
`h : String → String`; the event loop of Node.js is modelled by a small-step
transition system whose atomic steps are the synchronous segments of the
handler between `await` points.
-/

namespace AegisOps

/-! ## `clampNumber` (src/server/lib/gemini.ts:231-233)
`clampNumber(value, min, max) = Math.min(max, Math.max(min, value))` -/

def clampNumber (value lo hi : Int) : Int := min hi (max lo value)

/-! ## `withTimeout` effective timeout (src/server/lib/gemini.ts:317-318)
`const ms = clampNumber(Number(timeoutMs || 45_000), 5_000, 180_000);`
A missing / zero / non-numeric `timeoutMs` is falsy in JS and defaults to
45000; we model the argument as an `Int` with `0` standing for every falsy
value. -/

def effectiveTimeoutMs (timeoutMs : Int) : Int :=
  clampNumber (if timeoutMs = 0 then 45000 else timeoutMs) 5000 180000

/-! ## Retry engine (src/server/lib/gemini.ts:330-356)

`withRetry` clamps its configuration:
`maxAttempts = clampNumber(Number(input.maxAttempts || 1), 1, 6)` and
`baseDelayMs = clampNumber(Number(input.baseDelayMs || 400), 50, 5_000)`.
After a retriable failure of attempt `attempt < maxAttempts` it sleeps
`clampNumber(Math.round(baseDelayMs * Math.pow(2, attempt - 1) * jitter), 50, 10_000)`
where `jitter = 0.7 + Math.random() * 0.6`.

The operation is modelled as `op : Nat → Except E A`, giving the outcome of
each (1-indexed) attempt; the random jitter draws are a sequence
`jitters : Nat → ℚ` (`jitters a` is the draw after failed attempt `a`).
The trace records how many times `op` was invoked, the list of slept delays,
and the final result (`Except.error e` models `throw e`). -/

def effectiveMaxAttempts (maxAttempts : Int) : Int :=
  clampNumber (if maxAttempts = 0 then 1 else maxAttempts) 1 6

def effectiveBaseDelayMs (baseDelayMs : Int) : Int :=
  clampNumber (if baseDelayMs = 0 then 400 else baseDelayMs) 50 5000

/-- `0.7 + Math.random() * 0.6` for a uniform draw `u ∈ [0, 1)`
(src/server/lib/gemini.ts:349), modelled over `ℚ`. -/
def jitterFactor (u : ℚ) : ℚ := 7/10 + u * (6/10)

/-- The delay slept after failed attempt `attempt` (src/server/lib/gemini.ts:350):
`clampNumber(Math.round(baseDelayMs * Math.pow(2, attempt - 1) * jitter), 50, 10_000)`.
`Math.round` is `⌊x + 1/2⌋`, which is Mathlib's `round` on `ℚ`. -/
def retrySleepDelay (baseDelayMs : Int) (attempt : Nat) (jitter : ℚ) : Int :=
  clampNumber (round ((baseDelayMs : ℚ) * 2 ^ (attempt - 1) * jitter)) 50 10000

structure RetryTrace (E A : Type) where
  attemptsMade : Nat
  delays : List Int
  result : Except E A

/-- The `for` loop of `withRetry` (src/server/lib/gemini.ts:341-353), starting
at attempt number `attempt` with the (already clamped) bound `maxA`:
try the attempt; on success return; on failure rethrow when the attempt
budget is exhausted or the error is not retriable, otherwise sleep the
backoff delay and retry. -/
def withRetryGo (retriable : E → Bool) (op : Nat → Except E A) (baseDelayMs : Int)
    (jitters : Nat → ℚ) (attempt maxA : Nat) : RetryTrace E A :=
  match op attempt with
  | Except.ok a => ⟨1, [], Except.ok a⟩
  | Except.error e =>
    if h : maxA ≤ attempt ∨ retriable e = false then
      ⟨1, [], Except.error e⟩
    else
      let t := withRetryGo retriable op baseDelayMs jitters (attempt + 1) maxA
      ⟨t.attemptsMade + 1, retrySleepDelay baseDelayMs attempt (jitters attempt) :: t.delays,
        t.result⟩
termination_by maxA - attempt
decreasing_by
  simp only [not_or] at h
  omega

/-- `withRetry` (src/server/lib/gemini.ts:330-356): clamp the configuration
and run the attempt loop from attempt 1. -/
def withRetry (retriable : E → Bool) (op : Nat → Except E A)
    (maxAttempts baseDelayMs : Int) (jitters : Nat → ℚ) : RetryTrace E A :=
  withRetryGo retriable op (effectiveBaseDelayMs baseDelayMs) jitters 1
    (effectiveMaxAttempts maxAttempts).toNat

/-! ## General clamp bounds -/

theorem clampNumber_bounds (v lo hi : Int) (h : lo ≤ hi) :
    lo ≤ clampNumber v lo hi ∧ clampNumber v lo hi ≤ hi :=
  ⟨le_min h (le_max_left lo v), min_le_left hi _⟩

theorem clampNumber_of_mem (v lo hi : Int) (h1 : lo ≤ v) (h2 : v ≤ hi) :
    clampNumber v lo hi = v := by
  unfold clampNumber
  rw [max_eq_right h1, min_eq_right h2]

/-- **C10.** The effective per-attempt timeout of the retry engine is always
clamped into 5000–180000 ms: `withTimeout` applies
`min(180000, max(5000, timeoutMs))`, with a falsy (missing/zero/non-numeric)
`timeoutMs` defaulting to 45000, so an attempt is never timed out in less
than 5000 ms and never allowed more than 180000 ms. -/
theorem withTimeout_timeout_clamped (timeoutMs : Int) :
    effectiveTimeoutMs timeoutMs
        = min 180000 (max 5000 (if timeoutMs = 0 then 45000 else timeoutMs)) ∧
    5000 ≤ effectiveTimeoutMs timeoutMs ∧
    effectiveTimeoutMs timeoutMs ≤ 180000 ∧
    effectiveTimeoutMs 0 = 45000 := by
  refine ⟨rfl, ?_, ?_, by decide⟩
  · exact (clampNumber_bounds _ 5000 180000 (by norm_num)).1
  · exact (clampNumber_bounds _ 5000 180000 (by norm_num)).2

/-! ## Retry loop characterization for an always-failing retriable operation -/

theorem withRetryGo_always_fail (retriable : E → Bool) (op : Nat → Except E A)
    (err : Nat → E) (base : Int) (jit : Nat → ℚ)
    (hop : ∀ n, op n = Except.error (err n))
    (hret : ∀ n, retriable (err n) = true) :
    ∀ k attempt maxA, attempt + k = maxA →
      (withRetryGo retriable op base jit attempt maxA).attemptsMade = k + 1 ∧
      (withRetryGo retriable op base jit attempt maxA).result = Except.error (err maxA) ∧
      (withRetryGo retriable op base jit attempt maxA).delays
        = (List.range' attempt k).map (fun a => retrySleepDelay base a (jit a)) := by
  intro k
  induction k with
  | zero =>
    intro attempt maxA hsum
    have hA : maxA = attempt := by omega
    subst hA
    unfold withRetryGo
    rw [hop]
    simp
  | succ k ih =>
    intro attempt maxA hsum
    have hlt : ¬ (maxA ≤ attempt ∨ retriable (err attempt) = false) := by
      push_neg
      exact ⟨by omega, by simp [hret]⟩
    have hrec := ih (attempt + 1) maxA (by omega)
    unfold withRetryGo
    rw [hop]
    simp only [dif_neg hlt]
    refine ⟨?_, hrec.2.1, ?_⟩
    · rw [hrec.1]
    · rw [List.range'_succ, List.map_cons, hrec.2.2]

/-- **C4** (amended): an operation that always fails with a retriable error is
attempted exactly `clampNumber(maxAttempts || 1, 1, 6)` times — in particular
exactly `maxAttempts` times whenever `1 ≤ maxAttempts ≤ 6` — and the error
finally thrown is the last attempt's error verbatim. -/
theorem withRetry_exhausts_clamped_attempts_last_error
    (op : Nat → Except E A) (err : Nat → E) (retriable : E → Bool)
    (maxAttempts baseDelayMs : Int) (jitters : Nat → ℚ)
    (hop : ∀ n, op n = Except.error (err n))
    (hret : ∀ n, retriable (err n) = true) :
    (withRetry retriable op maxAttempts baseDelayMs jitters).attemptsMade
        = (effectiveMaxAttempts maxAttempts).toNat ∧
    (withRetry retriable op maxAttempts baseDelayMs jitters).result
        = Except.error (err (effectiveMaxAttempts maxAttempts).toNat) ∧
    (1 ≤ maxAttempts → maxAttempts ≤ 6 →
        ((withRetry retriable op maxAttempts baseDelayMs jitters).attemptsMade : Int)
          = maxAttempts) := by
  have hM1 : 1 ≤ effectiveMaxAttempts maxAttempts :=
    (clampNumber_bounds _ 1 6 (by norm_num)).1
  have h := withRetryGo_always_fail retriable op err (effectiveBaseDelayMs baseDelayMs) jitters
      hop hret ((effectiveMaxAttempts maxAttempts).toNat - 1) 1
      (effectiveMaxAttempts maxAttempts).toNat (by omega)
  refine ⟨?_, ?_, ?_⟩
  · simp only [withRetry]
    rw [h.1]
    omega
  · simp only [withRetry]
    exact h.2.1
  · intro h1 h6
    simp only [withRetry]
    rw [h.1]
    have heq : effectiveMaxAttempts maxAttempts = maxAttempts := by
      unfold effectiveMaxAttempts
      rw [if_neg (by omega)]
      exact clampNumber_of_mem _ 1 6 h1 h6
    omega

/-- **C4 witness**: with `maxAttempts = 3` an always-failing retriable
operation is attempted exactly 3 times and the thrown error is the third
attempt's error. -/
theorem withRetry_exhausts_clamped_attempts_last_error_witness :
    (withRetry (fun _ => true) (fun n => (Except.error n : Except Nat Unit)) 3 400
        (fun _ => 1)).attemptsMade = 3 ∧
    (withRetry (fun _ => true) (fun n => (Except.error n : Except Nat Unit)) 3 400
        (fun _ => 1)).result = Except.error 3 := by
  have h := withRetry_exhausts_clamped_attempts_last_error
      (fun n => (Except.error n : Except Nat Unit)) (fun n => n) (fun _ => true) 3 400
      (fun _ => 1) (fun _ => rfl) (fun _ => rfl)
  have he : (effectiveMaxAttempts 3).toNat = 3 := by decide
  exact ⟨by rw [h.1, he], by rw [h.2.1, he]⟩

/-- **C4 counterexample**: the claim "attempted exactly `maxAttempts` times for
every configured `maxAttempts`" fails at `maxAttempts = 10`: the code clamps
the attempt budget to 6, so only 6 attempts are made. -/
theorem withRetry_attempts_not_configured_maxAttempts :
    (withRetry (fun _ => true) (fun n => (Except.error n : Except Nat Unit)) 10 400
        (fun _ => 1)).attemptsMade = 6 ∧ (6 : Nat) ≠ 10 := by
  have h := withRetryGo_always_fail (fun _ => true)
      (fun n => (Except.error n : Except Nat Unit)) (fun n => n) (effectiveBaseDelayMs 400)
      (fun _ => 1) (fun _ => rfl) (fun _ => rfl) 5 1 6 rfl
  constructor
  · simp only [withRetry]
    rw [show (effectiveMaxAttempts 10).toNat = 6 by decide, h.1]
  · decide

/-- **C5** (amended): in a run of `withRetry` on an always-retriably-failing
operation, the delay slept before retry attempt `n` (for `2 ≤ n` within the
attempt budget) is `clampNumber(round(baseDelay × 2^(n-2) × jitterFactor), 50, 10000)`
— exponent `n-2`, not `n-1` — where the jitter factor `0.7 + u·0.6` of a
uniform draw `u ∈ [0,1)` lies in the band `[0.7, 1.3)`, and every slept delay
is clamped into `[50, 10000]`. -/
theorem backoff_delay_formula
    (op : Nat → Except E A) (err : Nat → E) (retriable : E → Bool)
    (maxAttempts baseDelayMs : Int) (jitters : Nat → ℚ) (n : Nat)
    (hop : ∀ k, op k = Except.error (err k))
    (hret : ∀ k, retriable (err k) = true)
    (h2 : 2 ≤ n) (hn : (n : Int) ≤ effectiveMaxAttempts maxAttempts) :
    (withRetry retriable op maxAttempts baseDelayMs jitters).delays[n - 2]?
        = some (clampNumber
            (round ((effectiveBaseDelayMs baseDelayMs : ℚ) * 2 ^ (n - 2) * jitters (n - 1)))
            50 10000) ∧
    (∀ u : ℚ, 0 ≤ u → u < 1 → 7/10 ≤ jitterFactor u ∧ jitterFactor u < 13/10) ∧
    (∀ b : Int, ∀ a : Nat, ∀ j : ℚ,
        50 ≤ retrySleepDelay b a j ∧ retrySleepDelay b a j ≤ 10000) := by
  have hM1 : 1 ≤ effectiveMaxAttempts maxAttempts :=
    (clampNumber_bounds _ 1 6 (by norm_num)).1
  have hnM : n ≤ (effectiveMaxAttempts maxAttempts).toNat := by omega
  have h := withRetryGo_always_fail retriable op err (effectiveBaseDelayMs baseDelayMs) jitters
      hop hret ((effectiveMaxAttempts maxAttempts).toNat - 1) 1
      (effectiveMaxAttempts maxAttempts).toNat (by omega)
  refine ⟨?_, ?_, ?_⟩
  · simp only [withRetry]
    rw [h.2.2, List.getElem?_map, List.getElem?_range' ]
    · have h1 : 1 + 1 * (n - 2) = n - 1 := by omega
      have h21 : n - 1 - 1 = n - 2 := by omega
      rw [h1]
      simp only [Option.map_some', retrySleepDelay, h21]
    · omega
  · intro u h0 h1
    unfold jitterFactor
    constructor
    · nlinarith
    · nlinarith
  · intro b a j
    exact clampNumber_bounds _ 50 10000 (by norm_num)

/-- **C5 witness**: with effective base delay 400 and jitter draw `u = 0`
(jitter factor 0.7), the delay slept before attempt 2 is
`round(400 × 2^0 × 0.7) = 280`, inside the clamp band. -/
theorem backoff_delay_formula_witness :
    (withRetry (fun _ => true) (fun k => (Except.error k : Except Nat Unit)) 3 400
        (fun _ => jitterFactor 0)).delays[0]? = some 280 ∧
    7/10 ≤ jitterFactor 0 ∧ jitterFactor 0 < 13/10 := by
  have h := backoff_delay_formula (fun k => (Except.error k : Except Nat Unit)) (fun k => k)
      (fun _ => true) 3 400 (fun _ => jitterFactor 0) 2 (fun _ => rfl) (fun _ => rfl)
      (by norm_num) (by decide)
  have hband := h.2.1 0 (by norm_num) (by norm_num)
  refine ⟨?_, hband.1, hband.2⟩
  have h0 := h.1
  rw [show effectiveBaseDelayMs 400 = 400 by decide] at h0
  rw [h0]
  norm_num [jitterFactor, round_eq, clampNumber, min_def, max_def]

/-- **C5 counterexample**: the claim says the delay before attempt `n = 2` is
`baseDelay × 2^(n-1) × jitter` (clamped), i.e. 800 for base 400 and jitter 1;
the code actually sleeps `400 × 2^0 × 1 = 400` before attempt 2. -/
theorem backoff_delay_exponent_mismatch :
    (withRetry (fun _ => true) (fun k => (Except.error k : Except Nat Unit)) 3 400
        (fun _ => 1)).delays[0]? = some 400 ∧
    clampNumber (round ((400 : ℚ) * 2 ^ (2 - 1) * 1)) 50 10000 = 800 ∧
    (400 : Int) ≠ 800 := by
  have h := withRetryGo_always_fail (fun _ => true)
      (fun k => (Except.error k : Except Nat Unit)) (fun k => k) (effectiveBaseDelayMs 400)
      (fun _ => 1) (fun _ => rfl) (fun _ => rfl) 2 1 3 rfl
  refine ⟨?_, ?_, by decide⟩
  · simp only [withRetry]
    rw [show (effectiveMaxAttempts 3).toNat = 3 by decide, h.2.2]
    rw [show effectiveBaseDelayMs 400 = 400 by decide]
    simp only [List.range', List.map_cons, List.map_nil, retrySleepDelay,
      List.getElem?_cons_zero]
    norm_num [round_eq, clampNumber, min_def, max_def]
  · have hr : round ((400 : ℚ) * 2 ^ (2 - 1) * 1) = 800 := by norm_num [round_eq]
    rw [hr]
    decide

/-! ## Cache key builder (src/server/lib/analyzeCache.ts:30-46)

`buildAnalyzeCacheKey` feeds a SHA-256 digest with
`model:<model>\n`, `grounding:<0|1>\n`, `logs:<logs>\n`, `images:<count>\n`,
then one line per image holding the SHA-256 hex of `<mimeType>|<data>`.
The digest primitive from `node:crypto` is a host function and is abstracted
as a parameter `h : String → String`; the `digest.update` call sequence is
embedded as the concatenation of everything fed to the digest.
`input.model || ""` and `input.logs || ""` are the identity on strings and are
dropped; `image.mimeType || "image/png"` maps the empty string to
`"image/png"` (`jsOrMime`), and `image.data || ""` is again the identity. -/

structure AnalyzeImage where
  mimeType : String
  data : String
  deriving Repr, DecidableEq

structure AnalyzeCacheKeyInput where
  model : String
  logs : String
  enableGrounding : Bool
  images : List AnalyzeImage
  deriving Repr, DecidableEq

/-- `image.mimeType || "image/png"`: the empty string is falsy in JS. -/
def jsOrMime (m : String) : String := if m = "" then "image/png" else m

/-- The byte string hashed by `hashImagePayload`
(src/server/lib/analyzeCache.ts:30-34): `mimeType|data`. -/
def imagePayloadMessage (image : AnalyzeImage) : String :=
  jsOrMime image.mimeType ++ "|" ++ image.data

/-- `hashImagePayload` with the SHA-256 hex digest abstracted as `h`. -/
def hashImagePayload (h : String → String) (image : AnalyzeImage) : String :=
  h (imagePayloadMessage image)

/-- The per-image digest lines fed by the `for` loop
(src/server/lib/analyzeCache.ts:42-44). -/
def imagesSection (h : String → String) : List AnalyzeImage → String
  | [] => ""
  | image :: rest => hashImagePayload h image ++ "\n" ++ imagesSection h rest

/-- Everything fed to the outer digest by `buildAnalyzeCacheKey`
(src/server/lib/analyzeCache.ts:36-45), in update order. -/
def analyzeKeyMessage (h : String → String) (input : AnalyzeCacheKeyInput) : String :=
  ("model:" ++ input.model ++ "\n") ++
  (("grounding:" ++ (if input.enableGrounding then "1" else "0") ++ "\n") ++
  (("logs:" ++ input.logs ++ "\n") ++
  (("images:" ++ toString input.images.length ++ "\n") ++
  imagesSection h input.images)))

/-- `buildAnalyzeCacheKey` (src/server/lib/analyzeCache.ts:36-46). -/
def buildAnalyzeCacheKey (h : String → String) (input : AnalyzeCacheKeyInput) : String :=
  h (analyzeKeyMessage h input)

/-! ### String concatenation cancellation helpers -/

theorem strAppend_assoc (a b c : String) : a ++ b ++ c = a ++ (b ++ c) := by
  cases a; cases b; cases c
  exact congrArg String.mk (List.append_assoc _ _ _)

theorem strAppend_left_cancel {a b c : String} (h : a ++ b = a ++ c) : b = c := by
  cases a; cases b; cases c
  have h2 : _ ++ _ = _ ++ _ := congrArg String.data h
  exact congrArg String.mk (List.append_cancel_left h2)

theorem strAppend_right_cancel {a b c : String} (h : a ++ c = b ++ c) : a = b := by
  cases a; cases b; cases c
  have h2 : _ ++ _ = _ ++ _ := congrArg String.data h
  exact congrArg String.mk (List.append_cancel_right h2)

theorem strMid_cancel {p s m1 m2 : String} (h : p ++ m1 ++ s = p ++ m2 ++ s) : m1 = m2 :=
  strAppend_right_cancel
    (strAppend_left_cancel (strAppend_assoc p m1 s ▸ strAppend_assoc p m2 s ▸ h))

theorem strGroup_cancel {p s r m1 m2 : String}
    (h : (p ++ m1 ++ s) ++ r = (p ++ m2 ++ s) ++ r) : m1 = m2 :=
  strMid_cancel (strAppend_right_cancel h)

theorem strNil_append (s : String) : "" ++ s = s := by
  cases s
  exact congrArg String.mk (List.nil_append _)

theorem imagesSection_append (h : String → String) (l1 l2 : List AnalyzeImage) :
    imagesSection h (l1 ++ l2) = imagesSection h l1 ++ imagesSection h l2 := by
  induction l1 with
  | nil => simp [imagesSection, strNil_append]
  | cons x t ih =>
    show hashImagePayload h x ++ "\n" ++ imagesSection h (t ++ l2)
        = hashImagePayload h x ++ "\n" ++ imagesSection h t ++ imagesSection h l2
    rw [ih, ← strAppend_assoc (hashImagePayload h x ++ "\n") (imagesSection h t)
      (imagesSection h l2)]

/-! ### Field sensitivity of the digest message -/

theorem analyzeKeyMessage_model_inj (h : String → String) {i1 i2 : AnalyzeCacheKeyInput}
    (heq : analyzeKeyMessage h i1 = analyzeKeyMessage h i2)
    (hl : i1.logs = i2.logs) (hg : i1.enableGrounding = i2.enableGrounding)
    (him : i1.images = i2.images) : i1.model = i2.model := by
  simp only [analyzeKeyMessage, hl, hg, him] at heq
  exact strGroup_cancel heq

theorem analyzeKeyMessage_logs_inj (h : String → String) {i1 i2 : AnalyzeCacheKeyInput}
    (heq : analyzeKeyMessage h i1 = analyzeKeyMessage h i2)
    (hm : i1.model = i2.model) (hg : i1.enableGrounding = i2.enableGrounding)
    (him : i1.images = i2.images) : i1.logs = i2.logs := by
  simp only [analyzeKeyMessage, hm, hg, him] at heq
  exact strGroup_cancel (strAppend_left_cancel (strAppend_left_cancel heq))

theorem analyzeKeyMessage_grounding_inj (h : String → String) {i1 i2 : AnalyzeCacheKeyInput}
    (heq : analyzeKeyMessage h i1 = analyzeKeyMessage h i2)
    (hm : i1.model = i2.model) (hl : i1.logs = i2.logs)
    (him : i1.images = i2.images) : i1.enableGrounding = i2.enableGrounding := by
  simp only [analyzeKeyMessage, hm, hl, him] at heq
  have h3 := strGroup_cancel (strAppend_left_cancel heq)
  cases hb1 : i1.enableGrounding <;> cases hb2 : i2.enableGrounding
  · rfl
  · rw [hb1, hb2] at h3
    exact absurd h3 (by decide)
  · rw [hb1, hb2] at h3
    exact absurd h3 (by decide)
  · rfl

theorem analyzeKeyMessage_image_inj (h : String → String) (hinj : Function.Injective h)
    {i1 i2 : AnalyzeCacheKeyInput} {A B : List AnalyzeImage} {x y : AnalyzeImage}
    (heq : analyzeKeyMessage h i1 = analyzeKeyMessage h i2)
    (hm : i1.model = i2.model) (hl : i1.logs = i2.logs)
    (hg : i1.enableGrounding = i2.enableGrounding)
    (h1 : i1.images = A ++ x :: B) (h2 : i2.images = A ++ y :: B) :
    imagePayloadMessage x = imagePayloadMessage y := by
  simp only [analyzeKeyMessage, hm, hl, hg, h1, h2] at heq
  have hlen : (A ++ x :: B).length = (A ++ y :: B).length := by simp
  rw [hlen] at heq
  have h4 := strAppend_left_cancel (strAppend_left_cancel (strAppend_left_cancel
    (strAppend_left_cancel heq)))
  rw [imagesSection_append, imagesSection_append] at h4
  have h5 := strAppend_left_cancel h4
  have h6 : hashImagePayload h x ++ "\n" ++ imagesSection h B
      = hashImagePayload h y ++ "\n" ++ imagesSection h B := h5
  exact hinj (strAppend_right_cancel (strAppend_right_cancel h6))

theorem imagePayloadMessage_data_inj {x y : AnalyzeImage}
    (hmime : x.mimeType = y.mimeType)
    (heq : imagePayloadMessage x = imagePayloadMessage y) : x.data = y.data := by
  simp only [imagePayloadMessage, hmime] at heq
  exact strAppend_left_cancel heq

theorem imagePayloadMessage_mime_inj {x y : AnalyzeImage}
    (hdata : x.data = y.data) (hx : x.mimeType ≠ "") (hy : y.mimeType ≠ "")
    (heq : imagePayloadMessage x = imagePayloadMessage y) : x.mimeType = y.mimeType := by
  simp only [imagePayloadMessage, hdata] at heq
  have h2 := strAppend_right_cancel (strAppend_right_cancel heq)
  simp only [jsOrMime] at h2
  rwa [if_neg hx, if_neg hy] at h2

/-- **C2** (amended): `buildAnalyzeCacheKey` is pure and deterministic, its key
has the digest's fixed length (64 hex characters for SHA-256, modelled by the
assumption on `h`), and — under injectivity of the digest — changing exactly
one of the backend identity, the log text, the grounding flag, a single
image's data, or a single image's *nonempty* mimeType changes the key.  (An
empty mimeType is canonicalized to `"image/png"` by `image.mimeType || "image/png"`,
so the mimeType sensitivity necessarily excludes that alias.) -/
theorem buildAnalyzeCacheKey_deterministic_field_sensitive (h : String → String) :
    (∀ input, buildAnalyzeCacheKey h input = buildAnalyzeCacheKey h input) ∧
    ((∀ s, (h s).length = 64) →
        ∀ input, (buildAnalyzeCacheKey h input).length = 64) ∧
    (Function.Injective h →
      (∀ i1 i2 : AnalyzeCacheKeyInput, i1.model ≠ i2.model →
          i1.logs = i2.logs → i1.enableGrounding = i2.enableGrounding →
          i1.images = i2.images →
          buildAnalyzeCacheKey h i1 ≠ buildAnalyzeCacheKey h i2) ∧
      (∀ i1 i2 : AnalyzeCacheKeyInput, i1.logs ≠ i2.logs →
          i1.model = i2.model → i1.enableGrounding = i2.enableGrounding →
          i1.images = i2.images →
          buildAnalyzeCacheKey h i1 ≠ buildAnalyzeCacheKey h i2) ∧
      (∀ i1 i2 : AnalyzeCacheKeyInput, i1.enableGrounding ≠ i2.enableGrounding →
          i1.model = i2.model → i1.logs = i2.logs → i1.images = i2.images →
          buildAnalyzeCacheKey h i1 ≠ buildAnalyzeCacheKey h i2) ∧
      (∀ i1 i2 : AnalyzeCacheKeyInput, ∀ A B : List AnalyzeImage, ∀ x y : AnalyzeImage,
          x.data ≠ y.data → x.mimeType = y.mimeType →
          i1.model = i2.model → i1.logs = i2.logs →
          i1.enableGrounding = i2.enableGrounding →
          i1.images = A ++ x :: B → i2.images = A ++ y :: B →
          buildAnalyzeCacheKey h i1 ≠ buildAnalyzeCacheKey h i2) ∧
      (∀ i1 i2 : AnalyzeCacheKeyInput, ∀ A B : List AnalyzeImage, ∀ x y : AnalyzeImage,
          x.mimeType ≠ y.mimeType → x.mimeType ≠ "" → y.mimeType ≠ "" →
          x.data = y.data →
          i1.model = i2.model → i1.logs = i2.logs →
          i1.enableGrounding = i2.enableGrounding →
          i1.images = A ++ x :: B → i2.images = A ++ y :: B →
          buildAnalyzeCacheKey h i1 ≠ buildAnalyzeCacheKey h i2)) := by
  refine ⟨fun _ => rfl, fun hlen input => hlen _, fun hinj => ⟨?_, ?_, ?_, ?_, ?_⟩⟩
  · intro i1 i2 hne hl hg him hkey
    exact hne (analyzeKeyMessage_model_inj h (hinj hkey) hl hg him)
  · intro i1 i2 hne hm hg him hkey
    exact hne (analyzeKeyMessage_logs_inj h (hinj hkey) hm hg him)
  · intro i1 i2 hne hm hl him hkey
    exact hne (analyzeKeyMessage_grounding_inj h (hinj hkey) hm hl him)
  · intro i1 i2 A B x y hne hmime hm hl hg h1 h2 hkey
    exact hne (imagePayloadMessage_data_inj hmime
      (analyzeKeyMessage_image_inj h hinj (hinj hkey) hm hl hg h1 h2))
  · intro i1 i2 A B x y hne hx hy hdata hm hl hg h1 h2 hkey
    exact hne (imagePayloadMessage_mime_inj hdata hx hy
      (analyzeKeyMessage_image_inj h hinj (hinj hkey) hm hl hg h1 h2))

/-- **C2 witness**: concrete instances of determinism, fixed key length (with
a length-64 digest stub), and one-field sensitivity with the injective digest
`id`. -/
theorem buildAnalyzeCacheKey_field_sensitive_witness :
    buildAnalyzeCacheKey id ⟨"gemini:g", "log", false, []⟩
        = buildAnalyzeCacheKey id ⟨"gemini:g", "log", false, []⟩ ∧
    (buildAnalyzeCacheKey (fun _ => String.mk (List.replicate 64 'k'))
        ⟨"m", "l", false, []⟩).length = 64 ∧
    buildAnalyzeCacheKey id ⟨"gemini:g", "log", false, []⟩
        ≠ buildAnalyzeCacheKey id ⟨"ollama:g", "log", false, []⟩ ∧
    buildAnalyzeCacheKey id ⟨"m", "a", false, []⟩
        ≠ buildAnalyzeCacheKey id ⟨"m", "b", false, []⟩ ∧
    buildAnalyzeCacheKey id ⟨"m", "l", true, []⟩
        ≠ buildAnalyzeCacheKey id ⟨"m", "l", false, []⟩ ∧
    buildAnalyzeCacheKey id ⟨"m", "l", false, [⟨"image/png", "AA"⟩]⟩
        ≠ buildAnalyzeCacheKey id ⟨"m", "l", false, [⟨"image/png", "BB"⟩]⟩ ∧
    buildAnalyzeCacheKey id ⟨"m", "l", false, [⟨"image/png", "AA"⟩]⟩
        ≠ buildAnalyzeCacheKey id ⟨"m", "l", false, [⟨"image/webp", "AA"⟩]⟩ := by
  have h := buildAnalyzeCacheKey_deterministic_field_sensitive (id : String → String)
  have hid : Function.Injective (id : String → String) := fun a b hab => hab
  have hc := h.2.2 hid
  refine ⟨h.1 _, ?_, ?_, ?_, ?_, ?_, ?_⟩
  · exact (buildAnalyzeCacheKey_deterministic_field_sensitive
        (fun _ => String.mk (List.replicate 64 'k'))).2.1 (fun _ => by decide) _
  · exact hc.1 _ _ (by decide) rfl rfl rfl
  · exact hc.2.1 _ _ (by decide) rfl rfl rfl
  · exact hc.2.2.1 _ _ (by decide) rfl rfl rfl
  · exact hc.2.2.2.1 _ _ [] [] ⟨"image/png", "AA"⟩ ⟨"image/png", "BB"⟩
      (by decide) rfl rfl rfl rfl rfl rfl
  · exact hc.2.2.2.2 _ _ [] [] ⟨"image/png", "AA"⟩ ⟨"image/webp", "AA"⟩
      (by decide) (by decide) (by decide) rfl rfl rfl rfl rfl rfl

/-- **C2 counterexample**: with the injective digest `id`, the two inputs
differing only in one image's mimeType (`""` versus `"image/png"`) produce the
*same* key, because `hashImagePayload` canonicalizes a falsy mimeType to
`"image/png"`; so "changing any single image's mimeType yields a different
key" fails for every digest at this input. -/
theorem buildAnalyzeCacheKey_empty_mime_collision :
    Function.Injective (id : String → String) ∧
    (⟨"", "ZZ"⟩ : AnalyzeImage) ≠ (⟨"image/png", "ZZ"⟩ : AnalyzeImage) ∧
    buildAnalyzeCacheKey id ⟨"m", "l", false, [⟨"", "ZZ"⟩]⟩
      = buildAnalyzeCacheKey id ⟨"m", "l", false, [⟨"image/png", "ZZ"⟩]⟩ :=
  ⟨fun a b hab => hab, by decide, by decide⟩

/-! ## Analyze cache (src/server/lib/analyzeCache.ts:48-109)

The backing `Map` of JavaScript preserves insertion order; it is modelled as
an association list.  `Map.delete` removes the entry, `Map.set` updates a
present key in place and appends an absent one.  `Date.now()` is passed
explicitly as `now`; `get` and `set` return the updated cache. -/

structure CacheEntryL (T : Type) where
  value : T
  expiresAt : Int
  deriving Repr, DecidableEq

/-- `clampInt` (src/server/lib/analyzeCache.ts:22-24):
`Math.max(min, Math.min(max, Number(value || 0)))`. -/
def clampInt (value lo hi : Int) : Int := max lo (min hi value)

/-- `isExpired` (src/server/lib/analyzeCache.ts:26-28): `entry.expiresAt <= now`. -/
def entryExpired (entry : CacheEntryL T) (now : Int) : Bool := entry.expiresAt ≤ now

abbrev CacheStore (T : Type) := List (String × CacheEntryL T)

/-- `Map.get` on the insertion-ordered map. -/
def storeLookup (key : String) : CacheStore T → Option (CacheEntryL T)
  | [] => none
  | (k, e) :: rest => if k = key then some e else storeLookup key rest

/-- `Map.delete`. -/
def storeDelete (key : String) : CacheStore T → CacheStore T
  | [] => []
  | (k, e) :: rest => if k = key then rest else (k, e) :: storeDelete key rest

/-- `Map.set`: update in place when present, append when absent. -/
def storeSet (key : String) (e : CacheEntryL T) : CacheStore T → CacheStore T
  | [] => [(key, e)]
  | (k, e0) :: rest => if k = key then (k, e) :: rest else (k, e0) :: storeSet key e rest

structure AnalyzeCache (T : Type) where
  ttlSec : Int
  maxEntries : Int
  store : CacheStore T

/-- `createAnalyzeCache` (src/server/lib/analyzeCache.ts:48-51):
`ttlSec = clampInt(options.ttlSec, 0, 86_400)`,
`maxEntries = clampInt(options.maxEntries, 0, 5_000)`, empty store. -/
def createAnalyzeCache (ttlSec maxEntries : Int) : AnalyzeCache T :=
  { ttlSec := clampInt ttlSec 0 86400
    maxEntries := clampInt maxEntries 0 5000
    store := [] }

/-- `enabled()` (src/server/lib/analyzeCache.ts:53-55). -/
def cacheEnabled (c : AnalyzeCache T) : Bool := c.ttlSec > 0 && c.maxEntries > 0

/-- `sweep(now)` (src/server/lib/analyzeCache.ts:57-63): delete every expired
entry. -/
def cacheSweep (c : AnalyzeCache T) (now : Int) : AnalyzeCache T :=
  { c with store := c.store.filter (fun p => !entryExpired p.2 now) }

/-- `get(key)` (src/server/lib/analyzeCache.ts:69-82): absent when disabled or
missing; expired entries are deleted and reported absent; a hit is re-inserted
at the back (LRU refresh on read) and its value returned. -/
def cacheGet (c : AnalyzeCache T) (key : String) (now : Int) :
    Option T × AnalyzeCache T :=
  if cacheEnabled c then
    match storeLookup key c.store with
    | none => (none, c)
    | some entry =>
      if entryExpired entry now then
        (none, { c with store := storeDelete key c.store })
      else
        (some entry.value, { c with store := storeSet key entry (storeDelete key c.store) })
  else (none, c)

/-- `set(key, value)` (src/server/lib/analyzeCache.ts:84-100): no-op when
disabled; sweep expired entries; delete the key if present, otherwise when the
store is full delete the first (`store.keys().next().value`) key — guarded by
JS truthiness `if (oldestKey)`, so an empty-string first key is *not* deleted —
then insert `{value, expiresAt: now + ttlSec * 1000}`. -/
def cacheSet (c : AnalyzeCache T) (key : String) (value : T) (now : Int) :
    AnalyzeCache T :=
  if cacheEnabled c then
    let c1 := cacheSweep c now
    let st :=
      if (storeLookup key c1.store).isSome then storeDelete key c1.store
      else if (c1.store.length : Int) ≥ c1.maxEntries then
        match c1.store with
        | [] => c1.store
        | (k0, _) :: _ => if k0 ≠ "" then storeDelete k0 c1.store else c1.store
      else c1.store
    { c1 with store := storeSet key ⟨value, now + c1.ttlSec * 1000⟩ st }
  else c

/-! ### Store lemmas -/

theorem storeLookup_eq_none_of_not_mem {key : String} {st : CacheStore T}
    (h : key ∉ st.map Prod.fst) : storeLookup key st = none := by
  induction st with
  | nil => rfl
  | cons p rest ih =>
    obtain ⟨k, e⟩ := p
    simp only [List.map_cons, List.mem_cons, not_or] at h
    simp only [storeLookup]
    rw [if_neg (fun hh => h.1 hh.symm)]
    exact ih h.2

theorem storeLookup_delete_self {key : String} {st : CacheStore T}
    (h : (st.map Prod.fst).Nodup) : storeLookup key (storeDelete key st) = none := by
  induction st with
  | nil => rfl
  | cons p rest ih =>
    obtain ⟨k, e⟩ := p
    simp only [List.map_cons, List.nodup_cons] at h
    by_cases hk : k = key
    · subst hk
      simp only [storeDelete, if_pos rfl]
      exact storeLookup_eq_none_of_not_mem h.1
    · simp only [storeDelete, if_neg hk, storeLookup, if_neg hk]
      exact ih h.2

theorem storeSet_eq_append {key : String} {e : CacheEntryL T} {st : CacheStore T}
    (h : storeLookup key st = none) : storeSet key e st = st ++ [(key, e)] := by
  induction st with
  | nil => rfl
  | cons p rest ih =>
    obtain ⟨k, e0⟩ := p
    simp only [storeLookup] at h
    by_cases hk : k = key
    · rw [if_pos hk] at h
      exact absurd h (by simp)
    · rw [if_neg hk] at h
      simp only [storeSet, if_neg hk, ih h, List.cons_append]

theorem cacheSweep_of_unexpired {c : AnalyzeCache T} {now : Int}
    (h : ∀ p ∈ c.store, entryExpired p.2 now = false) : cacheSweep c now = c := by
  unfold cacheSweep
  have hf : c.store.filter (fun p => !entryExpired p.2 now) = c.store :=
    List.filter_eq_self.mpr (fun p hp => by rw [h p hp]; rfl)
  rw [hf]

/-- Eviction step: on a full store of unexpired entries whose first (least
recently used) key is truthy, inserting a fresh key drops exactly that first
entry and appends the new one at the back. -/
theorem cacheSet_evicts_head {c : AnalyzeCache T} {now : Int} {key k0 : String}
    {e0 : CacheEntryL T} {tail : CacheStore T} {v : T}
    (hen : cacheEnabled c = true)
    (hst : c.store = (k0, e0) :: tail)
    (hk0 : k0 ≠ "")
    (hfresh : storeLookup key c.store = none)
    (hunexp : ∀ p ∈ c.store, entryExpired p.2 now = false)
    (hfull : (c.store.length : Int) ≥ c.maxEntries) :
    cacheSet c key v now
      = { c with store := tail ++ [(key, ⟨v, now + c.ttlSec * 1000⟩)] } := by
  have hfr : storeLookup key tail = none := by
    rw [hst] at hfresh
    simp only [storeLookup] at hfresh
    by_cases hk : k0 = key
    · rw [if_pos hk] at hfresh
      exact absurd hfresh (by simp)
    · rwa [if_neg hk] at hfresh
  unfold cacheSet
  rw [if_pos hen, cacheSweep_of_unexpired hunexp]
  simp only [hfresh, Option.isSome_none]
  rw [if_neg (by simp)]
  rw [if_pos hfull]
  rw [hst]
  simp [storeSet_eq_append hfr, hk0, storeDelete]

/-- Read refresh: a successful unexpired `get` returns the stored value and
re-inserts the entry at the back of the store (most recently used). -/
theorem cacheGet_hit_refreshes {c : AnalyzeCache T} {now : Int} {key : String}
    {entry : CacheEntryL T}
    (hen : cacheEnabled c = true)
    (hnodup : (c.store.map Prod.fst).Nodup)
    (hl : storeLookup key c.store = some entry)
    (hunexp : entryExpired entry now = false) :
    cacheGet c key now
      = (some entry.value, { c with store := storeDelete key c.store ++ [(key, entry)] }) := by
  unfold cacheGet
  rw [if_pos hen, hl]
  simp only [hunexp, Bool.false_eq_true, if_false]
  rw [storeSet_eq_append (storeLookup_delete_self hnodup)]

/-- **C3.** LRU eviction: a cache created with `ttlSec > 0` and
`maxEntries ≥ 1` is enabled; on a full store of unexpired distinct keys,
`set` of a fresh key evicts exactly the least-recently-used (first) entry;
a successful `get` refreshes the key's recency position (re-inserts at the
back); and in the concrete scenario `ttlSec=100, maxEntries=2` with
`set "a","b","c"` in order, `get "a"` is absent while `get "b"` and `get "c"`
return their stored values.  (Keys are quantified over nonempty strings:
cache keys are SHA-256 hex digests, and the source's `if (oldestKey)`
truthiness guard skips eviction only for the empty-string key.) -/
theorem analyzeCache_lru_eviction :
    (∀ ttl N : Int, 0 < ttl → 1 ≤ N →
        cacheEnabled (createAnalyzeCache ttl N : AnalyzeCache String) = true) ∧
    (∀ (c : AnalyzeCache String) (now : Int) (key k0 : String) (e0 : CacheEntryL String)
        (tail : CacheStore String) (v : String),
        cacheEnabled c = true → c.store = (k0, e0) :: tail → k0 ≠ "" →
        storeLookup key c.store = none →
        (∀ p ∈ c.store, entryExpired p.2 now = false) →
        (c.store.length : Int) ≥ c.maxEntries →
        cacheSet c key v now
          = { c with store := tail ++ [(key, ⟨v, now + c.ttlSec * 1000⟩)] }) ∧
    (∀ (c : AnalyzeCache String) (now : Int) (key : String) (entry : CacheEntryL String),
        cacheEnabled c = true → (c.store.map Prod.fst).Nodup →
        storeLookup key c.store = some entry → entryExpired entry now = false →
        cacheGet c key now
          = (some entry.value,
              { c with store := storeDelete key c.store ++ [(key, entry)] })) ∧
    ((cacheGet (cacheSet (cacheSet (cacheSet (createAnalyzeCache 100 2 : AnalyzeCache String)
          "a" "A" 0) "b" "B" 0) "c" "C" 0) "a" 0).1 = none ∧
     (cacheGet (cacheGet (cacheSet (cacheSet (cacheSet
          (createAnalyzeCache 100 2 : AnalyzeCache String)
          "a" "A" 0) "b" "B" 0) "c" "C" 0) "a" 0).2 "b" 0).1 = some "B" ∧
     (cacheGet (cacheGet (cacheGet (cacheSet (cacheSet (cacheSet
          (createAnalyzeCache 100 2 : AnalyzeCache String)
          "a" "A" 0) "b" "B" 0) "c" "C" 0) "a" 0).2 "b" 0).2 "c" 0).1 = some "C") := by
  refine ⟨?_, ?_, ?_, by decide, by decide, by decide⟩
  · intro ttl N h1 h2
    simp only [cacheEnabled, createAnalyzeCache, clampInt, Bool.and_eq_true, decide_eq_true_eq]
    omega
  · intro c now key k0 e0 tail v hen hst hk0 hfresh hunexp hfull
    exact cacheSet_evicts_head hen hst hk0 hfresh hunexp hfull
  · intro c now key entry hen hnodup hl hunexp
    exact cacheGet_hit_refreshes hen hnodup hl hunexp

/-- **C3 witness**: the eviction and refresh clauses applied to a concrete
full two-entry cache, and the enabled clause at `ttlSec=100, maxEntries=2`. -/
theorem analyzeCache_lru_eviction_witness :
    cacheEnabled (createAnalyzeCache 100 2 : AnalyzeCache String) = true ∧
    (cacheSet (⟨100, 2, [("a", ⟨"A", 100000⟩), ("b", ⟨"B", 100000⟩)]⟩ : AnalyzeCache String)
        "c" "C" 0).store
      = [("b", ⟨"B", 100000⟩), ("c", ⟨"C", 100000⟩)] ∧
    cacheGet (⟨100, 2, [("a", ⟨"A", 100000⟩), ("b", ⟨"B", 100000⟩)]⟩ : AnalyzeCache String)
        "a" 0
      = (some "A", ⟨100, 2, [("b", ⟨"B", 100000⟩), ("a", ⟨"A", 100000⟩)]⟩) := by
  have h := analyzeCache_lru_eviction
  refine ⟨h.1 100 2 (by norm_num) (by norm_num), ?_, ?_⟩
  · rw [h.2.1 (⟨100, 2, [("a", ⟨"A", 100000⟩), ("b", ⟨"B", 100000⟩)]⟩ : AnalyzeCache String)
      0 "c" "a" ⟨"A", 100000⟩ [("b", ⟨"B", 100000⟩)] "C" (by decide) rfl (by decide)
      (by decide) (by decide) (by decide)]
    rfl
  · rw [h.2.2.1 (⟨100, 2, [("a", ⟨"A", 100000⟩), ("b", ⟨"B", 100000⟩)]⟩ : AnalyzeCache String)
      0 "a" ⟨"A", 100000⟩ (by decide) (by decide) (by decide) (by decide)]
    rfl

/-! ## Fixed-window rate limiter (src/server/index.ts:100-122)

`rateBuckets` is a JS `Map` keyed by `<operation>:<client ip>`; modelled as an
insertion-ordered association list.  `Date.now()` is passed explicitly.
`isRateLimited` returns the decision together with the updated map. -/

structure RateBucket where
  count : Int
  resetAt : Int
  deriving Repr, DecidableEq

abbrev RateBuckets := List (String × RateBucket)

def bucketsLookup (key : String) : RateBuckets → Option RateBucket
  | [] => none
  | (k, b) :: rest => if k = key then some b else bucketsLookup key rest

def bucketsSet (key : String) (b : RateBucket) : RateBuckets → RateBuckets
  | [] => [(key, b)]
  | (k, b0) :: rest =>
    if k = key then (k, b) :: rest else (k, b0) :: bucketsSet key b rest

def RATE_BUCKET_MAX_SIZE : Int := 10000

/-- `cleanExpiredRateBuckets` (src/server/index.ts:100-106): delete every
bucket with `resetAt <= now`. -/
def cleanExpiredRateBuckets (now : Int) (buckets : RateBuckets) : RateBuckets :=
  buckets.filter (fun p => !decide (p.2.resetAt ≤ now))

/-- `isRateLimited` (src/server/index.ts:108-122): opportunistic GC when the
map is oversized; a missing or reset bucket is replaced by
`{count: 1, resetAt: now + windowMs}` and the call is allowed; a bucket at or
above `limit` rejects; otherwise the count is incremented and the call is
allowed. -/
def isRateLimited (key : String) (limit windowMs now : Int) (buckets : RateBuckets) :
    Bool × RateBuckets :=
  let b1 := if (buckets.length : Int) > RATE_BUCKET_MAX_SIZE
            then cleanExpiredRateBuckets now buckets else buckets
  match bucketsLookup key b1 with
  | none => (false, bucketsSet key ⟨1, now + windowMs⟩ b1)
  | some bucket =>
    if bucket.resetAt ≤ now then (false, bucketsSet key ⟨1, now + windowMs⟩ b1)
    else if bucket.count ≥ limit then (true, b1)
    else (false, bucketsSet key ⟨bucket.count + 1, bucket.resetAt⟩ b1)

/-- A sequence of `isRateLimited` calls for one key at the given times,
threading the bucket map; returns the list of decisions and the final map. -/
def simulateRateCalls (key : String) (limit windowMs : Int) :
    List Int → RateBuckets → List Bool × RateBuckets
  | [], buckets => ([], buckets)
  | t :: ts, buckets =>
    ((isRateLimited key limit windowMs t buckets).1
        :: (simulateRateCalls key limit windowMs ts
              (isRateLimited key limit windowMs t buckets).2).1,
      (simulateRateCalls key limit windowMs ts
        (isRateLimited key limit windowMs t buckets).2).2)

/-! ### Bucket map lemmas -/

theorem bucketsLookup_set_self (key : String) (b : RateBucket) (l : RateBuckets) :
    bucketsLookup key (bucketsSet key b l) = some b := by
  induction l with
  | nil => simp [bucketsSet, bucketsLookup]
  | cons p rest ih =>
    obtain ⟨k, b0⟩ := p
    by_cases hk : k = key
    · simp [bucketsSet, bucketsLookup, if_pos hk, hk]
    · simp [bucketsSet, if_neg hk, bucketsLookup, ih]

theorem bucketsLookup_mem {key : String} {b : RateBucket} {l : RateBuckets}
    (h : bucketsLookup key l = some b) : (key, b) ∈ l := by
  induction l with
  | nil => exact absurd h (by simp [bucketsLookup])
  | cons p rest ih =>
    obtain ⟨k, b0⟩ := p
    simp only [bucketsLookup] at h
    by_cases hk : k = key
    · rw [if_pos hk] at h
      subst hk
      obtain rfl : b0 = b := by simpa using h
      exact List.mem_cons_self _ _
    · rw [if_neg hk] at h
      exact List.mem_cons_of_mem _ (ih h)

theorem bucketsLookup_filter {key : String} {b : RateBucket} {l : RateBuckets}
    {p : String × RateBucket → Bool}
    (h : bucketsLookup key l = some b) (hp : p (key, b) = true) :
    bucketsLookup key (l.filter p) = some b := by
  induction l with
  | nil => exact absurd h (by simp [bucketsLookup])
  | cons q rest ih =>
    obtain ⟨k, b0⟩ := q
    simp only [bucketsLookup] at h
    by_cases hk : k = key
    · rw [if_pos hk] at h
      subst hk
      obtain rfl : b0 = b := by simpa using h
      rw [List.filter_cons, if_pos hp]
      simp [bucketsLookup]
    · rw [if_neg hk] at h
      rw [List.filter_cons]
      by_cases hq : p (k, b0) = true
      · rw [if_pos hq]
        simp only [bucketsLookup]
        rw [if_neg hk]
        exact ih h
      · rw [if_neg hq]
        exact ih h

/-- When every bucket stored for the key has `resetAt ≤ now` (in particular
when no bucket exists), the call is allowed and a fresh
`{count: 1, resetAt: now + windowMs}` bucket is stored. -/
theorem isRateLimited_fresh_or_expired {key : String} {limit windowMs now : Int}
    {buckets : RateBuckets}
    (h : ∀ b, (key, b) ∈ buckets → b.resetAt ≤ now) :
    (isRateLimited key limit windowMs now buckets).1 = false ∧
    bucketsLookup key (isRateLimited key limit windowMs now buckets).2
      = some ⟨1, now + windowMs⟩ := by
  unfold isRateLimited
  by_cases hsz : (buckets.length : Int) > RATE_BUCKET_MAX_SIZE
  · rw [if_pos hsz]
    cases hl : bucketsLookup key (cleanExpiredRateBuckets now buckets) with
    | none =>
      simp only [hl]
      exact ⟨trivial, bucketsLookup_set_self _ _ _⟩
    | some b =>
      have hmem := bucketsLookup_mem hl
      have hkeep := List.of_mem_filter hmem
      have hexp := h b (List.mem_of_mem_filter hmem)
      rw [decide_eq_true hexp] at hkeep
      exact absurd hkeep (by simp)
  · rw [if_neg hsz]
    cases hl : bucketsLookup key buckets with
    | none =>
      simp only [hl]
      exact ⟨trivial, bucketsLookup_set_self _ _ _⟩
    | some b =>
      have hexp := h b (bucketsLookup_mem hl)
      simp only [hl]
      rw [if_pos hexp]
      exact ⟨rfl, bucketsLookup_set_self _ _ _⟩

/-- Within the window (`now < resetAt`): the call is rejected exactly when the
count has reached `limit`, in which case the bucket is unchanged; otherwise
the count is incremented. -/
theorem isRateLimited_in_window {key : String} {limit windowMs now : Int}
    {buckets : RateBuckets} {c R : Int}
    (hlook : bucketsLookup key buckets = some ⟨c, R⟩) (hwin : now < R) :
    (isRateLimited key limit windowMs now buckets).1 = decide (limit ≤ c) ∧
    bucketsLookup key (isRateLimited key limit windowMs now buckets).2
      = some (if limit ≤ c then (⟨c, R⟩ : RateBucket) else ⟨c + 1, R⟩) := by
  have hb1 : bucketsLookup key
      (if (buckets.length : Int) > RATE_BUCKET_MAX_SIZE
       then cleanExpiredRateBuckets now buckets else buckets) = some ⟨c, R⟩ := by
    by_cases hsz : (buckets.length : Int) > RATE_BUCKET_MAX_SIZE
    · rw [if_pos hsz]
      exact bucketsLookup_filter hlook (by simp [hwin, not_le.mpr hwin])
    · rwa [if_neg hsz]
  unfold isRateLimited
  simp only [hb1]
  have hnexp : ¬ (R ≤ now) := not_le.mpr hwin
  rw [if_neg hnexp]
  by_cases hLc : limit ≤ c
  · rw [if_pos (show c ≥ limit from hLc), if_pos hLc]
    exact ⟨by simp [hLc], hb1⟩
  · rw [if_neg (show ¬ c ≥ limit from hLc), if_neg hLc]
    exact ⟨by simp [hLc], bucketsLookup_set_self _ _ _⟩

/-- Sequence of calls within one window, starting from a live bucket
`⟨c, R⟩` with `1 ≤ c ≤ limit` and all call times before `R`: the `j`-th call
(0-indexed) is rejected exactly when `limit ≤ c + j`, and the final count is
`min (c + #calls) limit` with `resetAt` unchanged. -/
theorem simulateRateCalls_in_window (key : String) (limit windowMs : Int) :
    ∀ (ts : List Int) (buckets : RateBuckets) (c R : Int),
      bucketsLookup key buckets = some ⟨c, R⟩ → 1 ≤ c → c ≤ limit →
      (∀ t ∈ ts, t < R) →
      (simulateRateCalls key limit windowMs ts buckets).1
          = (List.range ts.length).map (fun (j : Nat) => decide (limit ≤ c + (j : Int))) ∧
      bucketsLookup key (simulateRateCalls key limit windowMs ts buckets).2
          = some ⟨min (c + ts.length) limit, R⟩ := by
  intro ts
  induction ts with
  | nil =>
    intro buckets c R hlook h1 hcL hts
    refine ⟨rfl, ?_⟩
    show bucketsLookup key buckets = _
    simp only [List.length_nil, Nat.cast_zero, add_zero]
    rw [hlook, min_eq_left hcL]
  | cons t ts ih =>
    intro buckets c R hlook h1 hcL hts
    have hwin : t < R := hts t (List.mem_cons_self _ _)
    have hstep := @isRateLimited_in_window key limit windowMs t buckets c R hlook hwin
    by_cases hLc : limit ≤ c
    · have hc : c = limit := le_antisymm hcL hLc
      have hlook2 : bucketsLookup key (isRateLimited key limit windowMs t buckets).2
          = some ⟨c, R⟩ := by
        rw [hstep.2, if_pos hLc]
      have hrec := ih (isRateLimited key limit windowMs t buckets).2 c R hlook2 h1 hcL
        (fun u hu => hts u (List.mem_cons_of_mem _ hu))
      refine ⟨?_, ?_⟩
      · show (isRateLimited key limit windowMs t buckets).1
            :: (simulateRateCalls key limit windowMs ts
                  (isRateLimited key limit windowMs t buckets).2).1 = _
        rw [hstep.1, hrec.1, List.length_cons, List.range_succ_eq_map, List.map_cons,
          List.map_map]
        refine congrArg₂ _ (by simp [hLc]) ?_
        refine List.map_congr_left (fun a _ => ?_)
        simp only [Function.comp_apply]
        rw [decide_eq_decide]
        subst hc
        constructor
        · intro _
          push_cast
          omega
        · intro _
          omega
      · show bucketsLookup key (simulateRateCalls key limit windowMs ts
            (isRateLimited key limit windowMs t buckets).2).2 = _
        rw [hrec.2]
        have : min (c + ((ts.length : Nat) : Int)) limit
            = min (c + (((t :: ts).length : Nat) : Int)) limit := by
          subst hc
          simp only [List.length_cons]
          push_cast
          omega
        rw [this]
    · have hlook2 : bucketsLookup key (isRateLimited key limit windowMs t buckets).2
          = some ⟨c + 1, R⟩ := by
        rw [hstep.2, if_neg hLc]
      have hrec := ih (isRateLimited key limit windowMs t buckets).2 (c + 1) R hlook2
        (by omega) (by omega)
        (fun u hu => hts u (List.mem_cons_of_mem _ hu))
      refine ⟨?_, ?_⟩
      · show (isRateLimited key limit windowMs t buckets).1
            :: (simulateRateCalls key limit windowMs ts
                  (isRateLimited key limit windowMs t buckets).2).1 = _
        rw [hstep.1, hrec.1, List.length_cons, List.range_succ_eq_map, List.map_cons,
          List.map_map]
        refine congrArg₂ _ (by simp [hLc]) ?_
        refine List.map_congr_left (fun a _ => ?_)
        simp only [Function.comp_apply]
        rw [decide_eq_decide]
        constructor
        · intro hmm
          push_cast
          push_cast at hmm
          omega
        · intro hmm
          push_cast at hmm
          omega
      · show bucketsLookup key (simulateRateCalls key limit windowMs ts
            (isRateLimited key limit windowMs t buckets).2).2 = _
        rw [hrec.2]
        have : min (c + 1 + ((ts.length : Nat) : Int)) limit
            = min (c + (((t :: ts).length : Nat) : Int)) limit := by
          simp only [List.length_cons]
          push_cast
          omega
        rw [this]

/-- **C6.** Fixed-window rate limiting: (a) when no bucket exists for the key
or the bucket's `resetAt` has passed (`resetAt ≤ now`), the call creates
`{count: 1, resetAt: now + windowMs}` and is allowed; (b) within a window a
call is rejected exactly when the count has reached the limit, otherwise the
count increments; (c) hence in a burst starting fresh at `t1` with all later
calls before `t1 + W`, exactly the first `L` calls are allowed (the `j`-th
later call, 0-indexed, is rejected iff `L ≤ 1 + j`), the count saturates at
`L`, and the bucket resets at `t1 + W` — after which clause (a) applies again
and the next call starts a fresh bucket and is allowed. -/
theorem isRateLimited_fixed_window :
    (∀ (key : String) (L W now : Int) (buckets : RateBuckets),
        (∀ b, (key, b) ∈ buckets → b.resetAt ≤ now) →
        (isRateLimited key L W now buckets).1 = false ∧
        bucketsLookup key (isRateLimited key L W now buckets).2 = some ⟨1, now + W⟩) ∧
    (∀ (key : String) (L W now : Int) (buckets : RateBuckets) (c R : Int),
        bucketsLookup key buckets = some ⟨c, R⟩ → now < R →
        (isRateLimited key L W now buckets).1 = decide (L ≤ c) ∧
        bucketsLookup key (isRateLimited key L W now buckets).2
          = some (if L ≤ c then (⟨c, R⟩ : RateBucket) else ⟨c + 1, R⟩)) ∧
    (∀ (key : String) (L W t1 : Int) (ts : List Int) (buckets0 : RateBuckets),
        1 ≤ L →
        (∀ b, (key, b) ∈ buckets0 → b.resetAt ≤ t1) →
        (∀ t ∈ ts, t < t1 + W) →
        (simulateRateCalls key L W (t1 :: ts) buckets0).1
          = false
            :: (List.range ts.length).map (fun (j : Nat) => decide (L ≤ 1 + (j : Int))) ∧
        bucketsLookup key (simulateRateCalls key L W (t1 :: ts) buckets0).2
          = some ⟨min (1 + ts.length) L, t1 + W⟩) := by
  refine ⟨fun key L W now buckets h => isRateLimited_fresh_or_expired h,
    fun key L W now buckets c R h1 h2 => isRateLimited_in_window h1 h2, ?_⟩
  intro key L W t1 ts buckets0 hL h0 hts
  have hfresh := @isRateLimited_fresh_or_expired key L W t1 buckets0 h0
  have hsim := simulateRateCalls_in_window key L W ts (isRateLimited key L W t1 buckets0).2
      1 (t1 + W) hfresh.2 le_rfl hL hts
  constructor
  · show (isRateLimited key L W t1 buckets0).1
        :: (simulateRateCalls key L W ts (isRateLimited key L W t1 buckets0).2).1 = _
    rw [hfresh.1, hsim.1]
  · show bucketsLookup key
        (simulateRateCalls key L W ts (isRateLimited key L W t1 buckets0).2).2 = _
    rw [hsim.2]

/-- **C6 witness**: limit 2, window 60000, four calls at times 0,1,2,3 from an
empty map — the first two are allowed, the next two rejected, and the bucket
ends at `{count: 2, resetAt: 60000}`. -/
theorem isRateLimited_fixed_window_witness :
    (simulateRateCalls "analyze:ip" 2 60000 [0, 1, 2, 3] []).1
        = [false, false, true, true] ∧
    bucketsLookup "analyze:ip" (simulateRateCalls "analyze:ip" 2 60000 [0, 1, 2, 3] []).2
        = some ⟨2, 60000⟩ := by
  have h := isRateLimited_fixed_window
  have hc := h.2.2 "analyze:ip" 2 60000 0 [1, 2, 3] [] (by norm_num)
      (fun b hb => absurd hb (List.not_mem_nil _)) (by decide)
  constructor
  · rw [hc.1]
    decide
  · rw [hc.2]
    decide

/-! ## Image normalization and validation (src/server/lib/validation.ts)

Regular expressions of the source are embedded structurally:
`DATA_URL_PREFIX = /^data:([^;,]+);base64,/i` as `dataUrlMatch`,
`BASE64_PATTERN = /^[A-Za-z0-9+/=\s]+$/` as `base64PatternTest`, and
`\s+`-removal as a character filter.  JS `\s` and `trim()` are modelled on
their ASCII range (all strings involved are ASCII). -/

structure RawImage where
  mimeType : Option String
  data : Option String
  deriving Repr, DecidableEq

structure NormalizedImage where
  mimeType : String
  data : String
  deriving Repr, DecidableEq

/-- JS `\s`, ASCII range. -/
def isJsWs (c : Char) : Bool :=
  c = ' ' || c = '\t' || c = '\n' || c = '\r' || c = '\x0b' || c = '\x0c'

def trimChars (l : List Char) : List Char :=
  ((l.dropWhile isJsWs).reverse.dropWhile isJsWs).reverse

/-- JS `String.prototype.trim()` (ASCII whitespace). -/
def jsTrim (s : String) : String := String.mk (trimChars s.data)

/-- `value.replace(/\s+/g, "")` (validation.ts:72-74). -/
def removeWhitespace (value : String) : String :=
  String.mk (value.data.filter (fun c => !isJsWs c))

def isBase64Char (c : Char) : Bool :=
  ('A' ≤ c && c ≤ 'Z') || ('a' ≤ c && c ≤ 'z') || ('0' ≤ c && c ≤ '9') ||
    c = '+' || c = '/' || c = '=' || isJsWs c

/-- `BASE64_PATTERN.test` (validation.ts:44): nonempty and every character in
`[A-Za-z0-9+/=\s]`. -/
def base64PatternTest (s : String) : Bool :=
  !s.data.isEmpty && s.data.all isBase64Char

def lowerChars (l : List Char) : List Char := l.map Char.toLower

/-- `String.prototype.toLowerCase()` (ASCII; modelled characterwise to stay
kernel-computable). -/
def lowerStr (s : String) : String := String.mk (lowerChars s.data)

/-- `String.prototype.endsWith`, characterwise. -/
def strEndsWith (s suffix : String) : Bool := suffix.data.isSuffixOf s.data

instance [DecidableEq E] [DecidableEq A] : DecidableEq (Except E A) := fun x y =>
  match x, y with
  | Except.ok a, Except.ok b => decidable_of_iff (a = b) (by simp)
  | Except.ok _, Except.error _ => isFalse (by simp)
  | Except.error _, Except.ok _ => isFalse (by simp)
  | Except.error e, Except.error f => decidable_of_iff (e = f) (by simp)

/-- `DATA_URL_PREFIX.match` (validation.ts:45): `^data:([^;,]+);base64,`,
case-insensitive.  The captured group runs to the first `;` or `,`; the match
succeeds iff that run is nonempty and is followed by `;base64,`. -/
def dataUrlMatch (raw : List Char) : Option (List Char × List Char) :=
  if lowerChars (raw.take 5) = "data:".data then
    let rest := raw.drop 5
    let seg := rest.takeWhile (fun c => (c != ';') && (c != ','))
    let rest2 := rest.dropWhile (fun c => (c != ';') && (c != ','))
    if !seg.isEmpty && lowerChars (rest2.take 8) = ";base64,".data then
      some (seg, rest2.drop 8)
    else none
  else none

/-- `stripDataUrlPrefix` (validation.ts:62-70; the source name carries a
suffix unusable here): split off an optional `data:<mime>;base64,` header,
returning the extracted trimmed lowercased mime type and the payload. -/
def stripDataUrl (value : String) : Option String × String :=
  let raw := jsTrim value
  match dataUrlMatch raw.data with
  | none => (none, raw)
  | some (seg, payload) => (some (lowerStr (jsTrim (String.mk seg))), String.mk payload)

/-- JS `a || b` on possibly-missing strings (empty string is falsy). -/
def jsOrStr (a b : Option String) : Option String :=
  match a with
  | some s => if s = "" then b else some s
  | none => b

/-- `normalizeMimeType` (validation.ts:56-60):
`String(input || "image/png").trim().toLowerCase()`, with a blank result
falling back to `"image/png"`. -/
def normalizeMimeType (input : Option String) : String :=
  let base := match input with
    | none => "image/png"
    | some s => if s = "" then "image/png" else s
  let raw := lowerStr (jsTrim base)
  if raw = "" then "image/png" else raw

/-- `ALLOWED_IMAGE_MIME_TYPES` (validation.ts:47-54). -/
def ALLOWED_IMAGE_MIME_TYPES : List String :=
  ["image/png", "image/jpeg", "image/jpg", "image/webp", "image/gif", "image/bmp"]

/-- `estimateBase64Bytes` (validation.ts:76-81). -/
def estimateBase64Bytes (value : String) : Int :=
  let base64 := removeWhitespace value
  if base64 = "" then 0
  else
    let padding : Int :=
      if strEndsWith base64 "==" then 2 else if strEndsWith base64 "=" then 1 else 0
    max 0 ((base64.length : Int) * 3 / 4 - padding)

/-- The `for (const row of source)` loop of `normalizeAndValidateImages`
(validation.ts:92-114) with accumulator `out`; `Except.error` models `throw`,
`Except.ok` models returning `out` (at end of list or at the cap break). -/
def normalizeImagesGo (maxImages maxImageBytes : Int) :
    List (Option RawImage) → List NormalizedImage → Except String (List NormalizedImage)
  | [], out => Except.ok out
  | row :: rest, out =>
    match row with
    | none => normalizeImagesGo maxImages maxImageBytes rest out
    | some r =>
      match r.data with
      | none => normalizeImagesGo maxImages maxImageBytes rest out
      | some d =>
        if jsTrim d = "" then normalizeImagesGo maxImages maxImageBytes rest out
        else
          let mimeType := normalizeMimeType (jsOrStr (stripDataUrl d).1 r.mimeType)
          if ALLOWED_IMAGE_MIME_TYPES.contains mimeType = false then
            Except.error ("Unsupported image mimeType: " ++ mimeType)
          else
            let data := removeWhitespace (stripDataUrl d).2
            if data = "" then normalizeImagesGo maxImages maxImageBytes rest out
            else if base64PatternTest data = false then
              Except.error "Invalid image base64 payload."
            else
              let sizeBytes := estimateBase64Bytes data
              if sizeBytes > maxImageBytes then
                Except.error ("Image payload too large (" ++ toString sizeBytes
                  ++ " bytes > " ++ toString maxImageBytes ++ " bytes).")
              else
                let out2 := out ++ [⟨mimeType, data⟩]
                if (out2.length : Int) ≥ maxImages then Except.ok out2
                else normalizeImagesGo maxImages maxImageBytes rest out2

/-- `normalizeAndValidateImages` (validation.ts:83-117):
`maxImages = Math.max(0, Number(options.maxImages || 0))`,
`maxImageBytes = Math.max(1, Number(options.maxImageBytes || 1))`. -/
def normalizeAndValidateImages (imagesRaw : List (Option RawImage))
    (maxImages maxImageBytes : Int) : Except String (List NormalizedImage) :=
  normalizeImagesGo (max 0 maxImages) (max 1 maxImageBytes) imagesRaw []

/-! ### Loop lemmas for the validator -/

theorem normalizeImagesGo_length_le (maxImages maxImageBytes : Int) :
    ∀ (rows : List (Option RawImage)) (out res : List NormalizedImage),
      (out.length : Int) < maxImages →
      normalizeImagesGo maxImages maxImageBytes rows out = Except.ok res →
      (res.length : Int) ≤ maxImages := by
  intro rows
  induction rows with
  | nil =>
    intro out res hlt heq
    obtain rfl : out = res := by simpa [normalizeImagesGo] using heq
    omega
  | cons row rest ih =>
    intro out res hlt heq
    cases row with
    | none =>
      exact ih out res hlt (by simpa [normalizeImagesGo] using heq)
    | some r =>
      cases hd : r.data with
      | none =>
        rw [show normalizeImagesGo maxImages maxImageBytes (some r :: rest) out
            = normalizeImagesGo maxImages maxImageBytes rest out by
          simp [normalizeImagesGo, hd]] at heq
        exact ih out res hlt heq
      | some d =>
        simp only [normalizeImagesGo, hd] at heq
        split at heq
        · exact ih out res hlt heq
        · split at heq
          · exact absurd heq (by simp)
          · split at heq
            · exact ih out res hlt heq
            · split at heq
              · exact absurd heq (by simp)
              · split at heq
                · exact absurd heq (by simp)
                · split at heq
                  case isTrue hcap =>
                    obtain rfl := (Except.ok.injEq _ _).mp heq
                    simp only [List.length_append, List.length_cons, List.length_nil]
                    push_cast
                    omega
                  case isFalse hcap =>
                    refine ih _ res ?_ heq
                    omega

theorem normalizeImagesGo_append (maxImages maxImageBytes : Int) :
    ∀ (l1 l2 : List (Option RawImage)) (out : List NormalizedImage),
      (out.length : Int) < maxImages →
      normalizeImagesGo maxImages maxImageBytes (l1 ++ l2) out
        = (match normalizeImagesGo maxImages maxImageBytes l1 out with
           | Except.error e => Except.error e
           | Except.ok res =>
             if (res.length : Int) ≥ maxImages then Except.ok res
             else normalizeImagesGo maxImages maxImageBytes l2 res) := by
  intro l1
  induction l1 with
  | nil =>
    intro l2 out hlt
    simp only [List.nil_append, normalizeImagesGo]
    rw [if_neg (by omega)]
  | cons row rest ih =>
    intro l2 out hlt
    cases row with
    | none =>
      simp only [List.cons_append, normalizeImagesGo]
      exact ih l2 out hlt
    | some r =>
      cases hd : r.data with
      | none =>
        simp only [List.cons_append, normalizeImagesGo, hd]
        exact ih l2 out hlt
      | some d =>
        simp only [List.cons_append, normalizeImagesGo, hd]
        by_cases h1 : jsTrim d = ""
        · rw [if_pos h1, if_pos h1]
          exact ih l2 out hlt
        · rw [if_neg h1, if_neg h1]
          by_cases h2 : ALLOWED_IMAGE_MIME_TYPES.contains
              (normalizeMimeType (jsOrStr (stripDataUrl d).1 r.mimeType)) = false
          · rw [if_pos h2, if_pos h2]
          · rw [if_neg h2, if_neg h2]
            by_cases h3 : removeWhitespace (stripDataUrl d).2 = ""
            · rw [if_pos h3, if_pos h3]
              exact ih l2 out hlt
            · rw [if_neg h3, if_neg h3]
              by_cases h4 : base64PatternTest (removeWhitespace (stripDataUrl d).2) = false
              · rw [if_pos h4, if_pos h4]
              · rw [if_neg h4, if_neg h4]
                by_cases h5 : estimateBase64Bytes (removeWhitespace (stripDataUrl d).2)
                    > maxImageBytes
                · rw [if_pos h5, if_pos h5]
                · rw [if_neg h5, if_neg h5]
                  by_cases h6 : (((out ++ [(⟨normalizeMimeType (jsOrStr (stripDataUrl d).1
                      r.mimeType), removeWhitespace (stripDataUrl d).2⟩ : NormalizedImage)]).length
                      : Nat) : Int) ≥ maxImages
                  · rw [if_pos h6, if_pos h6]
                    show _ = if _ then _ else _
                    rw [if_pos h6]
                  · rw [if_neg h6, if_neg h6]
                    refine (ih l2 _ ?_).trans ?_
                    · omega
                    · rfl

theorem normalizeImagesGo_mime_error (maxImages maxImageBytes : Int)
    (r : RawImage) (d : String) (rest : List (Option RawImage))
    (out : List NormalizedImage)
    (hd : r.data = some d) (ht : jsTrim d ≠ "")
    (hm : ALLOWED_IMAGE_MIME_TYPES.contains
        (normalizeMimeType (jsOrStr (stripDataUrl d).1 r.mimeType)) = false) :
    normalizeImagesGo maxImages maxImageBytes (some r :: rest) out
      = Except.error ("Unsupported image mimeType: "
          ++ normalizeMimeType (jsOrStr (stripDataUrl d).1 r.mimeType)) := by
  simp only [normalizeImagesGo, hd]
  rw [if_neg ht, if_pos hm]

/-- **C9** (amended): for every configured `maxImages ≥ 1`,
`normalizeAndValidateImages` returns at most `maxImages` images, and once the
cap is reached the remaining raw images are never examined: appending any tail
after a capped prefix leaves the result unchanged — in particular it never
raises an error for excess images.  (For `maxImages = 0` the cap is checked
only after a push, so one valid image may still be validated and returned —
see the counterexample.) -/
theorem normalizeAndValidateImages_cap (maxImages maxImageBytes : Int)
    (hmax : 1 ≤ maxImages) :
    (∀ rows res, normalizeAndValidateImages rows maxImages maxImageBytes = Except.ok res →
        (res.length : Int) ≤ maxImages) ∧
    (∀ pre tail full,
        normalizeAndValidateImages pre maxImages maxImageBytes = Except.ok full →
        (full.length : Int) ≥ maxImages →
        normalizeAndValidateImages (pre ++ tail) maxImages maxImageBytes
          = Except.ok full) := by
  have hclamp : max 0 maxImages = maxImages := max_eq_right (by omega)
  constructor
  · intro rows res h
    unfold normalizeAndValidateImages at h
    rw [hclamp] at h
    exact normalizeImagesGo_length_le maxImages (max 1 maxImageBytes) rows [] res
      (by simp only [List.length_nil, Nat.cast_zero]; omega) h
  · intro pre tail full h hfull
    unfold normalizeAndValidateImages at h ⊢
    rw [hclamp] at h ⊢
    rw [normalizeImagesGo_append maxImages (max 1 maxImageBytes) pre tail []
      (by simp only [List.length_nil, Nat.cast_zero]; omega)]
    rw [h]
    show (if (full.length : Int) ≥ maxImages then Except.ok full else _) = Except.ok full
    rw [if_pos hfull]

/-- **C9 witness**: with `maxImages = 1`, a valid png fills the cap and a
malformed pdf image appended after it is never validated — the call still
succeeds with just the png. -/
theorem normalizeAndValidateImages_cap_witness :
    normalizeAndValidateImages
        ([some ⟨some "image/png", some "QQ=="⟩] ++ [some ⟨some "application/pdf", some "XX"⟩])
        1 1000000
      = Except.ok [⟨"image/png", "QQ=="⟩] :=
  (normalizeAndValidateImages_cap 1 1000000 (by norm_num)).2
    [some ⟨some "image/png", some "QQ=="⟩] [some ⟨some "application/pdf", some "XX"⟩]
    [⟨"image/png", "QQ=="⟩] (by decide) (by decide)

/-- **C9 counterexample**: with `maxImages = 0` the output is *not* of length
at most `maxImages`: the cap check sits after the push, so one valid image is
validated and returned. -/
theorem normalizeAndValidateImages_zero_cap_exceeded :
    normalizeAndValidateImages [some ⟨some "image/png", some "QQ=="⟩] 0 1000000
        = Except.ok [⟨"image/png", "QQ=="⟩] ∧
    ¬ ((([(⟨"image/png", "QQ=="⟩ : NormalizedImage)]).length : Int) ≤ 0) := by
  constructor <;> decide

/-- **C8** (amended): every image row that is actually examined (nonblank
data, reached before the cap fills) and whose normalized (lowercased,
data-URL-extracted) mime type is outside the allowlist aborts the whole call
with the `Unsupported image mimeType` error; in particular
`{mimeType: "application/pdf", data: "aGVsbG8="}` is rejected.  Rows with
missing or blank data are skipped before mime validation, and rows after the
cap is reached are never examined (see the counterexample and C9). -/
theorem normalizeImages_unsupported_mime (maxImages maxImageBytes : Int)
    (hmax : 1 ≤ maxImages) :
    (∀ (pre rest : List (Option RawImage)) (res : List NormalizedImage)
        (r : RawImage) (d : String),
        normalizeAndValidateImages pre maxImages maxImageBytes = Except.ok res →
        (res.length : Int) < maxImages →
        r.data = some d → jsTrim d ≠ "" →
        ALLOWED_IMAGE_MIME_TYPES.contains
            (normalizeMimeType (jsOrStr (stripDataUrl d).1 r.mimeType)) = false →
        normalizeAndValidateImages (pre ++ some r :: rest) maxImages maxImageBytes
          = Except.error ("Unsupported image mimeType: "
              ++ normalizeMimeType (jsOrStr (stripDataUrl d).1 r.mimeType))) ∧
    normalizeAndValidateImages [some ⟨some "application/pdf", some "aGVsbG8="⟩]
        maxImages maxImageBytes
      = Except.error "Unsupported image mimeType: application/pdf" := by
  have hclamp : max 0 maxImages = maxImages := max_eq_right (by omega)
  constructor
  · intro pre rest res r d h hres hd ht hm
    unfold normalizeAndValidateImages at h ⊢
    rw [hclamp] at h ⊢
    rw [normalizeImagesGo_append maxImages (max 1 maxImageBytes) pre (some r :: rest) []
      (by simp only [List.length_nil, Nat.cast_zero]; omega)]
    rw [h]
    show (if (res.length : Int) ≥ maxImages then Except.ok res else _) = _
    rw [if_neg (by omega)]
    exact normalizeImagesGo_mime_error maxImages (max 1 maxImageBytes) r d rest res hd ht hm
  · unfold normalizeAndValidateImages
    have h := normalizeImagesGo_mime_error (max 0 maxImages) (max 1 maxImageBytes)
        ⟨some "application/pdf", some "aGVsbG8="⟩ "aGVsbG8=" [] [] rfl (by decide) (by decide)
    rw [h]
    rfl

/-- **C8 witness**: the pdf scenario at the concrete configuration
`maxImages = 3, maxImageBytes = 1000000`. -/
theorem normalizeImages_unsupported_mime_witness :
    normalizeAndValidateImages [some ⟨some "application/pdf", some "aGVsbG8="⟩] 3 1000000
      = Except.error "Unsupported image mimeType: application/pdf" :=
  (normalizeImages_unsupported_mime 3 1000000 (by norm_num)).2

/-- **C8 counterexample**: an image whose mimeType (`"application/pdf"`, which
normalizes to itself and is outside the allowlist) has blank data is silently
skipped rather than rejected, so "rejects every image whose normalized mime
type is outside the allowlist" fails at this input. -/
theorem normalizeImages_blank_data_skips_unsupported_mime :
    normalizeMimeType (some "application/pdf") = "application/pdf" ∧
    ALLOWED_IMAGE_MIME_TYPES.contains "application/pdf" = false ∧
    normalizeAndValidateImages [some ⟨some "application/pdf", some ""⟩] 3 1000000
      = Except.ok [] := by
  refine ⟨by decide, by decide, by decide⟩

/-! ## JSON repair parser (src/server/lib/json.ts:18-39)

The three textual repairs are embedded as scanners over `List Char`,
reproducing the semantics of the global regex replaces of the source
(left-to-right, non-overlapping, scanning resumes after each match):

* `fixed.replace(/,(\s*[}\]])/g, "$1")` — drop a comma directly preceding
  (whitespace and) a closing brace/bracket;
* `fixed.replace(/([{,]\s*)([a-zA-Z0-9_]+?)\s*:/g, '$1"$2":')` — quote a bare
  identifier key after `{` or `,` (the whitespace between key and colon is not
  captured and is dropped, as in the source);
* `fixed.replace(/[\x00-\x1F\x7F]/g, ...)` — strip control characters except
  `\n`, `\r`, `\t`.

`JSON.parse` is a host primitive, abstracted as `parse : String → Except E V`
(`Except.error` models the thrown `SyntaxError`). -/

theorem length_dropWhile_le (p : α → Bool) (l : List α) :
    (l.dropWhile p).length ≤ l.length := by
  induction l with
  | nil => simp
  | cons a t ih =>
    rw [List.dropWhile_cons]
    by_cases hp : p a = true
    · rw [if_pos hp]
      exact le_trans ih (by simp)
    · rw [if_neg hp]

def removeTrailingCommasAux : List Char → List Char
  | [] => []
  | c :: rest =>
    if c = ',' then
      match h : rest.dropWhile isJsWs with
      | b :: rest3 =>
        if b = '}' ∨ b = ']' then
          rest.takeWhile isJsWs ++ b :: removeTrailingCommasAux rest3
        else c :: removeTrailingCommasAux rest
      | [] => c :: removeTrailingCommasAux rest
    else c :: removeTrailingCommasAux rest
termination_by l => l.length
decreasing_by
  all_goals simp only [List.length_cons]
  · have hle := length_dropWhile_le isJsWs rest
    rw [h] at hle
    simp only [List.length_cons] at hle
    omega
  · omega
  · omega
  · omega

def isWordChar (c : Char) : Bool :=
  ('a' ≤ c && c ≤ 'z') || ('A' ≤ c && c ≤ 'Z') || ('0' ≤ c && c ≤ '9') || c = '_'

def quoteBareKeysAux : List Char → List Char
  | [] => []
  | c :: rest =>
    if c = '{' ∨ c = ',' then
      match h : ((rest.dropWhile isJsWs).dropWhile isWordChar).dropWhile isJsWs with
      | ':' :: r4 =>
        if ((rest.dropWhile isJsWs).takeWhile isWordChar).isEmpty then
          c :: quoteBareKeysAux rest
        else
          c :: rest.takeWhile isJsWs
            ++ '"' :: (rest.dropWhile isJsWs).takeWhile isWordChar
            ++ '"' :: ':' :: quoteBareKeysAux r4
      | _ => c :: quoteBareKeysAux rest
    else c :: quoteBareKeysAux rest
termination_by l => l.length
decreasing_by
  all_goals simp only [List.length_cons]
  · omega
  · have h1 := length_dropWhile_le isJsWs rest
    have h2 := length_dropWhile_le isWordChar (rest.dropWhile isJsWs)
    have h3 := length_dropWhile_le isJsWs
      ((rest.dropWhile isJsWs).dropWhile isWordChar)
    rw [h] at h3
    simp only [List.length_cons] at h3
    omega
  · omega
  · omega

/-- Keep a character iff it is not a control character (`\x00`–`\x1F`,
`\x7F`) or is one of the preserved `\n`, `\r`, `\t`. -/
def stripControlChars (l : List Char) : List Char :=
  l.filter (fun c =>
    !(decide (c.toNat < 32) || decide (c.toNat = 127))
      || c == '\n' || c == '\r' || c == '\t')

/-- The repair pipeline of `tryRepairAndParseJson` (json.ts:23-35), in source
order: trailing commas, bare keys, control characters. -/
def repairJsonText (s : String) : String :=
  String.mk (stripControlChars (quoteBareKeysAux (removeTrailingCommasAux s.data)))

/-- `tryRepairAndParseJson` (json.ts:18-39): direct parse; on failure parse
the repaired text, letting a second failure propagate unchanged. -/
def tryRepairAndParseJson (parse : String → Except E V) (jsonStr : String) : Except E V :=
  match parse jsonStr with
  | Except.ok v => Except.ok v
  | Except.error _ => parse (repairJsonText jsonStr)

/-- Substring search over character lists (for `message.includes`). -/
def listIncludes (sub : List Char) : List Char → Bool
  | [] => sub.isPrefixOf []
  | c :: t => sub.isPrefixOf (c :: t) || listIncludes sub t

/-- `message.includes(sub)`. -/
def strIncludes (s sub : String) : Bool := listIncludes sub.data s.data

/-- `classifyErrorStatus` (src/server/index.ts:133-147), message branch — the
errors thrown by the gateway are plain `Error`s without an explicit
`status`/`statusCode` field, so classification is by lowercased message. -/
def classifyErrorStatus (message : String) : Int :=
  let m := lowerStr message
  if m = "" then 500
  else if strIncludes m "payload too large" then 413
  else if strIncludes m "missing " || strIncludes m "invalid "
      || strIncludes m "unsupported " then 400
  else if strIncludes m "timed out" then 504
  else if strIncludes m "too many" || strIncludes m "rate limit"
      || strIncludes m "429" then 429
  else if strIncludes m "misconfigured" then 500
  else if strIncludes m "network request failed" || strIncludes m "failed (" then 502
  else 500

/-- **C7** (amended): when the raw text fails to parse even after the repair
sequence (trailing commas removed, bare identifier keys quoted, control
characters stripped with `\n`/`\t`/`\r` preserved), `tryRepairAndParseJson`
fails with the second host-parse error propagated unchanged — the repo wraps
it in no `MalformedModelOutput` value and attaches no excerpt itself — and the
caller is not crashed: the route handler catches every error and maps its
message to an HTTP status, which is always in 400–599. -/
theorem tryRepairAndParseJson_failure_propagates
    (parse : String → Except E V) (s : String) (e1 e2 : E)
    (h1 : parse s = Except.error e1)
    (h2 : parse (repairJsonText s) = Except.error e2) :
    tryRepairAndParseJson parse s = Except.error e2 ∧
    (∀ v, tryRepairAndParseJson parse s ≠ Except.ok v) ∧
    (∀ msg, 400 ≤ classifyErrorStatus msg ∧ classifyErrorStatus msg ≤ 599) := by
  have hmain : tryRepairAndParseJson parse s = Except.error e2 := by
    unfold tryRepairAndParseJson
    rw [h1, h2]
  refine ⟨hmain, fun v hv => by rw [hmain] at hv; exact absurd hv (by simp), fun msg => ?_⟩
  unfold classifyErrorStatus
  dsimp only
  split_ifs <;> norm_num

/-- **C7 witness**: a parse that always fails with a fixed `SyntaxError`
message makes the repair parser fail with exactly that error, and the
message classifies to a well-formed HTTP status. -/
theorem tryRepairAndParseJson_failure_propagates_witness :
    tryRepairAndParseJson
        (fun _ => (Except.error "Unexpected token" : Except String Nat)) "oops"
      = Except.error "Unexpected token" ∧
    400 ≤ classifyErrorStatus "Unexpected token" ∧
    classifyErrorStatus "Unexpected token" ≤ 599 := by
  have h := tryRepairAndParseJson_failure_propagates
      (fun _ => (Except.error "Unexpected token" : Except String Nat)) "oops"
      "Unexpected token" "Unexpected token" rfl rfl
  exact ⟨h.1, (h.2.2 "Unexpected token").1, (h.2.2 "Unexpected token").2⟩

/-- **C7 counterexample**: the repair parser attaches no truncated excerpt of
the offending text: with a host parse failing with the fixed message `"E"`,
the failure surfaced for an input the message does not mention is exactly
`Except.error "E"` — no `MalformedModelOutput` condition carrying an excerpt
is constructed anywhere in the repo. -/
theorem tryRepairAndParseJson_no_excerpt_added :
    tryRepairAndParseJson (fun _ => (Except.error "E" : Except String Nat))
        "this text appears nowhere in the error"
      = Except.error "E" ∧
    strIncludes "E" "this text" = false := by
  exact ⟨rfl, by decide⟩

/-! ## Analyze in-flight coalescer (src/server/index.ts:338-421)

The `POST /api/analyze` handler runs on the single-threaded Node.js event
loop: every synchronous segment between `await` points is atomic.  The model
has two atomic steps, taken directly from the handler (non-demo provider):

* `handleArrive` — the synchronous prefix of the handler for one request:
  `analyzeCache.get(cacheKey)` hit responds immediately; otherwise an
  existing `analyzeInFlight.get(cacheKey)` promise is awaited (the request
  becomes a waiter on that work, starting nothing); otherwise the backend
  call is started (`backendCalls` increments, a fresh work id is recorded)
  and `analyzeInFlight.set(cacheKey, work)` runs in the same segment.
* `handleSettle` — the settlement of a work's promise and the microtask
  drain that follows it, during which no new request can interleave: the
  owner's `try { analyzeCache.set(...) } finally { analyzeInFlight.delete(...) }`
  caches on success and removes the in-flight entry whether the work
  succeeded or failed, and every waiter of that promise receives the very
  same outcome (value or rejection).

Reports and errors are abstracted to `Nat` payloads and the analyze cache to
a plain key→report map (its internal TTL/LRU behavior is the subject of C3). -/

inductive Outcome where
  | ok (report : Nat)
  | err (e : Nat)
  deriving Repr, DecidableEq

inductive ReqStatus where
  | pending
  | waitingOn (work : Nat)
  | done (o : Outcome)
  deriving Repr, DecidableEq

structure GatewayState where
  cache : String → Option Nat
  inflight : List (String × Nat)
  reqs : Nat → ReqStatus
  nextWork : Nat
  backendCalls : Nat

def inflightLookup (k : String) : List (String × Nat) → Option Nat
  | [] => none
  | (k0, w) :: rest => if k0 = k then some w else inflightLookup k rest

def inflightFindKey (w : Nat) : List (String × Nat) → Option String
  | [] => none
  | (k0, w0) :: rest => if w0 = w then some k0 else inflightFindKey w rest

/-- The synchronous segment of the analyze handler (index.ts:362-408). -/
def handleArrive (s : GatewayState) (r : Nat) (k : String) : GatewayState :=
  match s.cache k with
  | some v =>
    { s with reqs := fun q => if q = r then ReqStatus.done (Outcome.ok v) else s.reqs q }
  | none =>
    match inflightLookup k s.inflight with
    | some w =>
      { s with reqs := fun q => if q = r then ReqStatus.waitingOn w else s.reqs q }
    | none =>
      { s with
        inflight := (k, s.nextWork) :: s.inflight
        reqs := fun q => if q = r then ReqStatus.waitingOn s.nextWork else s.reqs q
        nextWork := s.nextWork + 1
        backendCalls := s.backendCalls + 1 }

/-- Settlement of work `w` with outcome `o` (index.ts:410-416 plus the
waiters of index.ts:373-377): cache on success, delete the in-flight entry
in the `finally`, hand the shared outcome to every waiter. -/
def handleSettle (s : GatewayState) (w : Nat) (o : Outcome) : GatewayState :=
  match inflightFindKey w s.inflight with
  | none => s
  | some k =>
    { s with
      cache := match o with
        | Outcome.ok v => fun k2 => if k2 = k then some v else s.cache k2
        | Outcome.err _ => s.cache
      inflight := s.inflight.filter (fun p => p.2 != w)
      reqs := fun q =>
        if s.reqs q = ReqStatus.waitingOn w then ReqStatus.done o else s.reqs q }

inductive GatewayEv where
  | arrive (r : Nat) (k : String)
  | settle (w : Nat) (o : Outcome)

def gatewayStep (s : GatewayState) : GatewayEv → GatewayState
  | GatewayEv.arrive r k => handleArrive s r k
  | GatewayEv.settle w o => handleSettle s w o

def runGateway (evs : List GatewayEv) (s : GatewayState) : GatewayState :=
  evs.foldl gatewayStep s

def initGateway : GatewayState :=
  { cache := fun _ => none
    inflight := []
    reqs := fun _ => ReqStatus.pending
    nextWork := 0
    backendCalls := 0 }

/-- At most one in-flight backend call per cache key. -/
def InflightKeysNodup (s : GatewayState) : Prop := (s.inflight.map Prod.fst).Nodup

/-! ### In-flight map lemmas -/

theorem inflightLookup_none_not_mem {k : String} {l : List (String × Nat)}
    (h : inflightLookup k l = none) : k ∉ l.map Prod.fst := by
  induction l with
  | nil => simp
  | cons p rest ih =>
    obtain ⟨k0, w⟩ := p
    simp only [inflightLookup] at h
    by_cases hk : k0 = k
    · rw [if_pos hk] at h
      exact absurd h (by simp)
    · rw [if_neg hk] at h
      simp only [List.map_cons, List.mem_cons, not_or]
      exact ⟨fun hkk => hk hkk.symm, ih h⟩

theorem inflightLookup_mem {k : String} {w : Nat} {l : List (String × Nat)}
    (h : inflightLookup k l = some w) : (k, w) ∈ l := by
  induction l with
  | nil => exact absurd h (by simp [inflightLookup])
  | cons p rest ih =>
    obtain ⟨k0, w0⟩ := p
    simp only [inflightLookup] at h
    by_cases hk : k0 = k
    · rw [if_pos hk] at h
      subst hk
      obtain rfl : w0 = w := by simpa using h
      exact List.mem_cons_self _ _
    · rw [if_neg hk] at h
      exact List.mem_cons_of_mem _ (ih h)

theorem inflightFindKey_mem {w : Nat} {k : String} {l : List (String × Nat)}
    (h : inflightFindKey w l = some k) : (k, w) ∈ l := by
  induction l with
  | nil => exact absurd h (by simp [inflightFindKey])
  | cons p rest ih =>
    obtain ⟨k0, w0⟩ := p
    simp only [inflightFindKey] at h
    by_cases hw : w0 = w
    · rw [if_pos hw] at h
      subst hw
      obtain rfl : k0 = k := by simpa using h
      exact List.mem_cons_self _ _
    · rw [if_neg hw] at h
      exact List.mem_cons_of_mem _ (ih h)

theorem nodup_key_unique {l : List (String × Nat)} (h : (l.map Prod.fst).Nodup)
    {k : String} {a b : Nat} (ha : (k, a) ∈ l) (hb : (k, b) ∈ l) : a = b := by
  induction l with
  | nil => exact absurd ha (by simp)
  | cons p rest ih =>
    simp only [List.map_cons, List.nodup_cons] at h
    rcases List.mem_cons.mp ha with ha1 | ha2
    · rcases List.mem_cons.mp hb with hb1 | hb2
      · rw [← ha1] at hb1
        exact (Prod.mk.injEq _ _ _ _).mp hb1.symm |>.2
      · exfalso
        apply h.1
        rw [← ha1]
        exact List.mem_map.mpr ⟨(k, b), hb2, rfl⟩
    · rcases List.mem_cons.mp hb with hb1 | hb2
      · exfalso
        apply h.1
        rw [← hb1]
        exact List.mem_map.mpr ⟨(k, a), ha2, rfl⟩
      · exact ih h.2 ha2 hb2

theorem inflightLookup_filter_none {l : List (String × Nat)} {k : String} {w : Nat}
    (hnodup : (l.map Prod.fst).Nodup) (hmem : (k, w) ∈ l) :
    inflightLookup k (l.filter (fun p => p.2 != w)) = none := by
  cases hl : inflightLookup k (l.filter (fun p => p.2 != w)) with
  | none => rfl
  | some w2 =>
    exfalso
    have hmem2 := inflightLookup_mem hl
    have hmem3 := List.mem_filter.mp hmem2
    have hne : w2 ≠ w := by simpa using hmem3.2
    exact hne (nodup_key_unique hnodup hmem3.1 hmem)

theorem gatewayStep_nodup {s : GatewayState} (h : InflightKeysNodup s) (ev : GatewayEv) :
    InflightKeysNodup (gatewayStep s ev) := by
  cases ev with
  | arrive r k =>
    show InflightKeysNodup (handleArrive s r k)
    unfold handleArrive
    cases hc : s.cache k with
    | some v => exact h
    | none =>
      cases hl : inflightLookup k s.inflight with
      | some w => exact h
      | none =>
        unfold InflightKeysNodup at h ⊢
        simp only [List.map_cons, List.nodup_cons]
        exact ⟨inflightLookup_none_not_mem hl, h⟩
  | settle w o =>
    show InflightKeysNodup (handleSettle s w o)
    unfold handleSettle
    cases hf : inflightFindKey w s.inflight with
    | none => exact h
    | some k =>
      unfold InflightKeysNodup at h ⊢
      exact List.Nodup.sublist ((List.filter_sublist _).map _) h

theorem runGateway_nodup (evs : List GatewayEv) :
    ∀ (s : GatewayState), InflightKeysNodup s → InflightKeysNodup (runGateway evs s) := by
  induction evs with
  | nil => exact fun s h => h
  | cons ev rest ih => exact fun s h => ih (gatewayStep s ev) (gatewayStep_nodup h ev)

/-- **C1.** Single-flight coalescing on the event loop: (a) every state
reachable from the initial state keeps at most one in-flight backend call per
cache key; (b) a request arriving while work `w` is in flight for its key
joins `w` — no new backend invocation, no new in-flight entry; (c) when the
work settles — success or failure alike — every caller waiting on it receives
the exact same outcome and the in-flight entry for the key is removed in the
same atomic settlement step; (d) concretely, two concurrent analyze requests
with the same key trigger exactly one backend invocation, both receive the
shared outcome `o` (the same report on success, the same error on failure),
and the in-flight map ends empty. -/
theorem analyze_single_flight_coalescing :
    (∀ (evs : List GatewayEv), InflightKeysNodup (runGateway evs initGateway)) ∧
    (∀ (s : GatewayState) (r : Nat) (k : String) (w : Nat),
        s.cache k = none → inflightLookup k s.inflight = some w →
        (handleArrive s r k).backendCalls = s.backendCalls ∧
        (handleArrive s r k).inflight = s.inflight ∧
        (handleArrive s r k).reqs r = ReqStatus.waitingOn w) ∧
    (∀ (s : GatewayState) (w : Nat) (k : String) (o : Outcome),
        InflightKeysNodup s → inflightFindKey w s.inflight = some k →
        (∀ q, s.reqs q = ReqStatus.waitingOn w →
            (handleSettle s w o).reqs q = ReqStatus.done o) ∧
        inflightLookup k (handleSettle s w o).inflight = none) ∧
    (∀ o : Outcome,
        (runGateway [GatewayEv.arrive 0 "K", GatewayEv.arrive 1 "K",
            GatewayEv.settle 0 o] initGateway).backendCalls = 1 ∧
        (runGateway [GatewayEv.arrive 0 "K", GatewayEv.arrive 1 "K",
            GatewayEv.settle 0 o] initGateway).reqs 0 = ReqStatus.done o ∧
        (runGateway [GatewayEv.arrive 0 "K", GatewayEv.arrive 1 "K",
            GatewayEv.settle 0 o] initGateway).reqs 1 = ReqStatus.done o ∧
        (runGateway [GatewayEv.arrive 0 "K", GatewayEv.arrive 1 "K",
            GatewayEv.settle 0 o] initGateway).inflight = []) := by
  refine ⟨?_, ?_, ?_, ?_⟩
  · intro evs
    exact runGateway_nodup evs initGateway (by simp [InflightKeysNodup, initGateway])
  · intro s r k w hc hl
    unfold handleArrive
    simp only [hc, hl]
    exact ⟨trivial, trivial, by simp⟩
  · intro s w k o hnodup hf
    unfold handleSettle
    simp only [hf]
    constructor
    · intro q hq
      simp [hq]
    · exact inflightLookup_filter_none hnodup (inflightFindKey_mem hf)
  · intro o
    refine ⟨rfl, ?_, ?_, rfl⟩
    · show (handleSettle (handleArrive (handleArrive initGateway 0 "K") 1 "K") 0 o).reqs 0
          = ReqStatus.done o
      simp [handleArrive, handleSettle, initGateway, inflightLookup, inflightFindKey]
    · show (handleSettle (handleArrive (handleArrive initGateway 0 "K") 1 "K") 0 o).reqs 1
          = ReqStatus.done o
      simp [handleArrive, handleSettle, initGateway, inflightLookup, inflightFindKey]

/-- **C1 witness**: the join and settle clauses at a concrete state holding
one in-flight work (id 5) for key `"K"` with request 7 waiting on it, settled
with a failure outcome, plus the reachability clause at the empty trace. -/
theorem analyze_single_flight_coalescing_witness :
    InflightKeysNodup (runGateway [] initGateway) ∧
    (handleArrive
        ⟨fun _ => none, [("K", 5)], fun _ => ReqStatus.pending, 6, 1⟩ 7 "K").backendCalls
      = 1 ∧
    (handleArrive
        ⟨fun _ => none, [("K", 5)], fun _ => ReqStatus.pending, 6, 1⟩ 7 "K").reqs 7
      = ReqStatus.waitingOn 5 ∧
    (handleSettle
        ⟨fun _ => none, [("K", 5)],
          fun q => if q = 7 then ReqStatus.waitingOn 5 else ReqStatus.pending, 6, 1⟩
        5 (Outcome.err 3)).reqs 7
      = ReqStatus.done (Outcome.err 3) ∧
    inflightLookup "K"
        (handleSettle
          ⟨fun _ => none, [("K", 5)],
            fun q => if q = 7 then ReqStatus.waitingOn 5 else ReqStatus.pending, 6, 1⟩
          5 (Outcome.err 3)).inflight
      = none := by
  have h := analyze_single_flight_coalescing
  have hb := h.2.1 ⟨fun _ => none, [("K", 5)], fun _ => ReqStatus.pending, 6, 1⟩ 7 "K" 5
      rfl (by decide)
  have hs := h.2.2.1
      ⟨fun _ => none, [("K", 5)],
        fun q => if q = 7 then ReqStatus.waitingOn 5 else ReqStatus.pending, 6, 1⟩
      5 "K" (Outcome.err 3) (by simp [InflightKeysNodup]) (by decide)
  exact ⟨h.1 [], hb.1, hb.2.2, hs.1 7 (by decide), hs.2⟩

end AegisOps
